import Mathlib

/-!
Verification of the image-modification pipeline of the
`custom-debian-iso` repository (`src/iso/injection.py`, with the
near-identical duplicate `src/udib/modiso.py`).

The Python code manipulates a filesystem: it extracts ISO images,
patches gzip-compressed initrd archives, regenerates an MD5 manifest,
extracts a 432-byte MBR prefix, and repacks a bootable ISO, shelling
out to `xorriso`, `cpio`, and `gzip` at the system boundary.

The shallow embedding models the filesystem explicitly (an association
list from absolute paths to entries carrying contents and permission
bits), models the external tools as an environment of oracle functions
(their behaviour is outside the repository), and translates each Python
function into a state-passing Lean function returning either a normal
result or the Python exception raised, always together with the final
filesystem state.  Byte strings are lists of naturals; MD5 is
implemented in full so that manifest contents are computed exactly.
-/

set_option maxRecDepth 10000

namespace CustomDebianIso

/-- Absolute filesystem paths, modelled as lists of path components.
The Python code resolves every path argument to an absolute `Path`
before use, so paths are taken as already absolute and normalised. -/
abbrev Path := List String

/-- A filesystem entry: a regular file (byte contents plus permission
mode bits), a directory (permission mode bits), or a symbolic link to
an absolute target path. -/
inductive Entry where
  | file (content : List Nat) (mode : Nat)
  | dir (mode : Nat)
  | symlink (target : Path)
deriving Repr, DecidableEq

/-- A filesystem: an association list from absolute paths to entries.
Lookups take the first matching entry. -/
abbrev FS := List (Path × Entry)

namespace FS

/-- Entry stored at path `p`, if any (first match wins). -/
def lookup : FS → Path → Option Entry
  | [], _ => none
  | pe :: rest, p => if pe.1 = p then some pe.2 else lookup rest p

/-- Remove every entry stored at path `p` (Python `unlink`,
`rm`). -/
def eraseKey : FS → Path → FS
  | [], _ => []
  | pe :: rest, p => if pe.1 = p then eraseKey rest p else pe :: eraseKey rest p

/-- Store entry `e` at path `p`, replacing an existing entry in place
or appending a new one. -/
def setEntry (fs : FS) (p : Path) (e : Entry) : FS :=
  if (lookup fs p).isSome then
    fs.map (fun pe => if pe.1 = p then (p, e) else pe)
  else
    fs ++ [(p, e)]

/-- Follow symbolic links at the end of a path (fuel-bounded), ending
at a non-link entry.  Intermediate components of the paths exercised by
the code are real directories, so only final-component links are
chased; this models Python `Path.resolve` for the states considered. -/
def resolveFinal (fs : FS) : Nat → Path → Option (Path × Entry)
  | 0, _ => none
  | fuel + 1, p =>
    match lookup fs p with
    | some (Entry.symlink t) => resolveFinal fs fuel t
    | some e => some (p, e)
    | none => none

/-- Fuel that bounds any symlink chain in `fs`. -/
def fuelOf (fs : FS) : Nat := fs.length + 1

/-- Python `Path.is_file()`: follows symbolic links. -/
def isFile (fs : FS) (p : Path) : Bool :=
  match resolveFinal fs (fuelOf fs) p with
  | some (_, Entry.file _ _) => true
  | _ => false

/-- Python `Path.is_dir()`: follows symbolic links. -/
def isDir (fs : FS) (p : Path) : Bool :=
  match resolveFinal fs (fuelOf fs) p with
  | some (_, Entry.dir _) => true
  | _ => false

/-- Python `Path.is_symlink()`: true iff the entry itself is a link. -/
def isSymlink (fs : FS) (p : Path) : Bool :=
  match lookup fs p with
  | some (Entry.symlink _) => true
  | _ => false

/-- Python `Path.exists()`: follows symbolic links (a dangling link
does not exist). -/
def pathExists (fs : FS) (p : Path) : Bool :=
  (resolveFinal fs (fuelOf fs) p).isSome

/-- Python `Path.resolve()` restricted to final-component links: the
canonical path of the entry reached, or the path itself if nothing is
reached. -/
def pyResolve (fs : FS) (p : Path) : Path :=
  match resolveFinal fs (fuelOf fs) p with
  | some (q, _) => q
  | none => p

/-- Python `Path.iterdir()`: the immediate children of `p` present in
the filesystem, in filesystem (directory) order. -/
def iterdir (fs : FS) (p : Path) : List Path :=
  (fs.filter (fun pe => pe.1.length == p.length + 1 && p.isPrefixOf pe.1)).map (·.1)

/-- Fuel bounding the depth of any directory recursion in `fs`:
one more than the longest stored path. -/
def walkFuel (fs : FS) : Nat :=
  fs.foldl (fun m pe => max m pe.1.length) 0 + 1

/-- The byte contents of the regular file stored at `p`, if any
(no link following; used on already-resolved paths). -/
def contentAt (fs : FS) (p : Path) : Option (List Nat) :=
  match lookup fs p with
  | some (Entry.file c _) => some c
  | _ => none

/-- The permission mode of the entry stored at `p`, if any. -/
def modeAt (fs : FS) (p : Path) : Option Nat :=
  match lookup fs p with
  | some (Entry.file _ m) => some m
  | some (Entry.dir m) => some m
  | _ => none

end FS

/-- Owner-read permission bit, as enforced for `open(..., "rb")`. -/
def canRead (m : Nat) : Bool := m &&& 0o400 != 0

/-- Owner-write permission bit, as enforced for `open(..., "wb")` /
`open(..., "r+b")` and for creating entries inside a directory. -/
def canWrite (m : Nat) : Bool := m &&& 0o200 != 0

/-- The final component of a path (Python `Path.name`). -/
def pyName (p : Path) : String := p.getLastD ""

/-- The parent of a path (Python `Path.parent`). -/
def pyParent (p : Path) : Path := p.dropLast

/-! ## MD5 (RFC 1321), used by `regenerate_iso_md5sums_file` through
`hashlib.md5` -/

namespace MD5

/-- 2^32, the word modulus. -/
def pow32 : Nat := 4294967296

/-- Per-round additive constants `K[i] = floor(2^32 * abs(sin(i+1)))`. -/
def K : List Nat :=
  [0xd76aa478, 0xe8c7b756, 0x242070db, 0xc1bdceee,
   0xf57c0faf, 0x4787c62a, 0xa8304613, 0xfd469501,
   0x698098d8, 0x8b44f7af, 0xffff5bb1, 0x895cd7be,
   0x6b901122, 0xfd987193, 0xa679438e, 0x49b40821,
   0xf61e2562, 0xc040b340, 0x265e5a51, 0xe9b6c7aa,
   0xd62f105d, 0x02441453, 0xd8a1e681, 0xe7d3fbc8,
   0x21e1cde6, 0xc33707d6, 0xf4d50d87, 0x455a14ed,
   0xa9e3e905, 0xfcefa3f8, 0x676f02d9, 0x8d2a4c8a,
   0xfffa3942, 0x8771f681, 0x6d9d6122, 0xfde5380c,
   0xa4beea44, 0x4bdecfa9, 0xf6bb4b60, 0xbebfbc70,
   0x289b7ec6, 0xeaa127fa, 0xd4ef3085, 0x04881d05,
   0xd9d4d039, 0xe6db99e5, 0x1fa27cf8, 0xc4ac5665,
   0xf4292244, 0x432aff97, 0xab9423a7, 0xfc93a039,
   0x655b59c3, 0x8f0ccc92, 0xffeff47d, 0x85845dd1,
   0x6fa87e4f, 0xfe2ce6e0, 0xa3014314, 0x4e0811a1,
   0xf7537e82, 0xbd3af235, 0x2ad7d2bb, 0xeb86d391]

/-- Per-round left-rotation amounts. -/
def S : List Nat :=
  [7, 12, 17, 22, 7, 12, 17, 22, 7, 12, 17, 22, 7, 12, 17, 22,
   5, 9, 14, 20, 5, 9, 14, 20, 5, 9, 14, 20, 5, 9, 14, 20,
   4, 11, 16, 23, 4, 11, 16, 23, 4, 11, 16, 23, 4, 11, 16, 23,
   6, 10, 15, 21, 6, 10, 15, 21, 6, 10, 15, 21, 6, 10, 15, 21]

/-- 32-bit left rotation. -/
def leftrot (x s : Nat) : Nat :=
  ((x <<< s) % pow32) ||| (x >>> (32 - s))

/-- Little-endian 32-bit word from four bytes. -/
def wordLE (b0 b1 b2 b3 : Nat) : Nat :=
  b0 + b1 * 256 + b2 * 65536 + b3 * 16777216

/-- Word `g` (little-endian) of a 64-byte chunk. -/
def chunkWord (chunk : List Nat) (g : Nat) : Nat :=
  wordLE (chunk.getD (4 * g) 0) (chunk.getD (4 * g + 1) 0)
    (chunk.getD (4 * g + 2) 0) (chunk.getD (4 * g + 3) 0)

/-- One of the 64 MD5 operations. -/
def step (chunk : List Nat) (st : Nat × Nat × Nat × Nat) (i : Nat) :
    Nat × Nat × Nat × Nat :=
  let (a, b, c, d) := st
  let f :=
    if i < 16 then (b &&& c) ||| ((0xffffffff ^^^ b) &&& d)
    else if i < 32 then (d &&& b) ||| ((0xffffffff ^^^ d) &&& c)
    else if i < 48 then b ^^^ c ^^^ d
    else c ^^^ (b ||| (0xffffffff ^^^ d))
  let g :=
    if i < 16 then i
    else if i < 32 then (5 * i + 1) % 16
    else if i < 48 then (3 * i + 5) % 16
    else (7 * i) % 16
  let tmp := (a + f + K.getD i 0 + chunkWord chunk g) % pow32
  (d, (b + leftrot tmp (S.getD i 0)) % pow32, b, c)

/-- Process one 64-byte chunk. -/
def processChunk (st : Nat × Nat × Nat × Nat) (chunk : List Nat) :
    Nat × Nat × Nat × Nat :=
  let (a0, b0, c0, d0) := st
  let (a, b, c, d) := (List.range 64).foldl (step chunk) st
  ((a0 + a) % pow32, (b0 + b) % pow32, (c0 + c) % pow32, (d0 + d) % pow32)

/-- Eight little-endian bytes of the 64-bit bit length. -/
def lenBytesLE (n : Nat) : List Nat :=
  [n % 256, n / 256 % 256, n / 65536 % 256, n / 16777216 % 256,
   n / 4294967296 % 256, n / 1099511627776 % 256,
   n / 281474976710656 % 256, n / 72057594037927936 % 256]

/-- MD5 padding: a `0x80` byte, zeros to 56 mod 64, then the bit
length in little-endian. -/
def padMessage (msg : List Nat) : List Nat :=
  msg ++ [128] ++ List.replicate ((119 - msg.length % 64) % 64) 0
    ++ lenBytesLE (8 * msg.length)

/-- Split into 64-byte chunks (fuel-bounded). -/
def chunks : Nat → List Nat → List (List Nat)
  | 0, _ => []
  | _, [] => []
  | fuel + 1, l => l.take 64 :: chunks fuel (l.drop 64)

/-- Four little-endian bytes of a 32-bit word. -/
def wordBytesLE (w : Nat) : List Nat :=
  [w % 256, w / 256 % 256, w / 65536 % 256, w / 16777216 % 256]

/-- The 16-byte MD5 digest of a byte string. -/
def digest (msg : List Nat) : List Nat :=
  let padded := padMessage msg
  let (a, b, c, d) := (chunks padded.length padded).foldl processChunk
    (0x67452301, 0xefcdab89, 0x98badcfe, 0x10325476)
  wordBytesLE a ++ wordBytesLE b ++ wordBytesLE c ++ wordBytesLE d

/-- The sixteen lowercase hexadecimal digit characters. -/
def hexChars : List Char := "0123456789abcdef".toList

/-- The lowercase hexadecimal digit for `n < 16`. -/
def hexChar (n : Nat) : Char := hexChars.getD n '0'

/-- Two lowercase hexadecimal characters for one byte. -/
def hexPair (b : Nat) : List Char := [hexChar (b / 16 % 16), hexChar (b % 16)]

/-- The characters of `hashlib.md5(msg).hexdigest()`. -/
def hexdigestChars (msg : List Nat) : List Char :=
  (digest msg).flatMap hexPair

/-- Python `hashlib.md5(msg).hexdigest()`. -/
def hexdigest (msg : List Nat) : String :=
  String.mk (hexdigestChars msg)

end MD5

/- Sanity checks of the MD5 implementation against the standard test
vectors (MD5 of the empty string, of "abc", and of "hi"). -/
/-! ## Python exceptions and results -/

/-- The Python exceptions raised by the code.  The specification
taxonomy maps onto them as: `NotFound` = `fileNotFound`,
`NotADirectory` = `notADirectory`, `AlreadyExists` = `fileExists`,
`InvalidFormat` = `assertionError` (initrd name check) or the
`runtimeError` of the image-extension check, `InvalidArgument` =
the `runtimeError` of the filesystem-name check, and `ProcessFailure`
= the `runtimeError` raised on a failing external tool. -/
inductive PyError where
  | fileNotFound
  | notADirectory
  | fileExists
  | isADirectory
  | permissionError
  | valueError
  | assertionError (name : String)
  | runtimeError (msg : String)
deriving Repr, DecidableEq

/-- Outcome of a stateful Python function: a normal return value or a
raised exception, in both cases together with the filesystem state at
that moment. -/
inductive PyResult (α : Type) where
  | ok (val : α) (fs : FS)
  | error (e : PyError) (fs : FS)
deriving Repr, DecidableEq

namespace PyResult

/-- The filesystem state carried by a result. -/
def fsOf : PyResult α → FS
  | .ok _ fs => fs
  | .error _ fs => fs

/-- Whether the call returned normally. -/
def isOk : PyResult α → Bool
  | .ok _ _ => true
  | .error _ _ => false

end PyResult

/-! ## Primitive filesystem operations (Python semantics, permission
bits enforced as for an unprivileged process) -/

/-- Python `Path.chmod` (follows symbolic links; raises
`FileNotFoundError` on a missing path). -/
def chmod (fs : FS) (p : Path) (m : Nat) : PyResult Unit :=
  match FS.resolveFinal fs (FS.fuelOf fs) p with
  | some (q, Entry.file c _) => .ok () (fs.setEntry q (Entry.file c m))
  | some (q, Entry.dir _) => .ok () (fs.setEntry q (Entry.dir m))
  | _ => .error .fileNotFound fs

/-- Python `Path.unlink`: removes a file or a symbolic link. -/
def unlink (fs : FS) (p : Path) : PyResult Unit :=
  match fs.lookup p with
  | some (Entry.dir _) => .error .isADirectory fs
  | some _ => .ok () (fs.eraseKey p)
  | none => .error .fileNotFound fs

/-- Python `open(p, "rb").read()`: requires an existing readable
file. -/
def openRead (fs : FS) (p : Path) : PyResult (List Nat) :=
  match FS.resolveFinal fs (FS.fuelOf fs) p with
  | some (_, Entry.file c m) =>
    if canRead m then .ok c fs else .error .permissionError fs
  | some (_, Entry.dir _) => .error .isADirectory fs
  | _ => .error .fileNotFound fs

/-- Python `open(p, "r+b").read()`: opening for update requires the
file to be both readable and writable (the write permission is checked
at `open` time even if nothing is written). -/
def openReadWrite (fs : FS) (p : Path) : PyResult (List Nat) :=
  match FS.resolveFinal fs (FS.fuelOf fs) p with
  | some (_, Entry.file c m) =>
    if canRead m && canWrite m then .ok c fs else .error .permissionError fs
  | some (_, Entry.dir _) => .error .isADirectory fs
  | _ => .error .fileNotFound fs

/-- Python `open(p, "wb")` followed by writing `content`: overwrites a
writable file in place, or creates a fresh file (mode 0644) inside an
existing writable parent directory. -/
def writeFile (fs : FS) (p : Path) (content : List Nat) : PyResult Unit :=
  match FS.resolveFinal fs (FS.fuelOf fs) p with
  | some (q, Entry.file _ m) =>
    if canWrite m then .ok () (fs.setEntry q (Entry.file content m))
    else .error .permissionError fs
  | some (_, Entry.dir _) => .error .isADirectory fs
  | _ =>
    match FS.resolveFinal fs (FS.fuelOf fs) (pyParent p) with
    | some (_, Entry.dir dm) =>
      if canWrite dm then .ok () (fs.setEntry p (Entry.file content 0o644))
      else .error .permissionError fs
    | _ => .error .fileNotFound fs

/-! ## Python string helpers -/

/-- Index of the last '.' in a list of characters, if any. -/
def lastDotIdx (cs : List Char) : Option Nat :=
  (List.range cs.length).foldl
    (fun acc i => if cs.getD i ' ' = '.' then some i else acc) none

/-- Python `Path.suffix` of a file name: the part from the last dot,
provided that dot is neither the first nor the last character. -/
def pySuffix (name : String) : String :=
  let cs := name.toList
  match lastDotIdx cs with
  | some i => if 0 < i && i + 1 < cs.length then String.mk (cs.drop i) else ""
  | none => ""

/-- Python `Path.with_suffix("")` applied to a file name: the name
with its suffix removed. -/
def pyStripSuffix (name : String) : String :=
  let s := pySuffix name
  if s = "" then name else String.mk (name.toList.take (name.toList.length - s.toList.length))

/-- UTF-8 text written through a Python text-mode file handle; all
text produced by the code (hex digests, spaces, path components) is
ASCII, where the encoding is the codepoint itself. -/
def encodeStr (s : String) : List Nat := s.toList.map Char.toNat

/-- Python `Path.relative_to`: the components of `q` relative to
`root`, or `none` (a raised `ValueError`) when `q` is not below
`root`. -/
def relTo (q root : Path) : Option Path :=
  if root.isPrefixOf q then some (q.drop root.length) else none

/-! ## External tools

`xorriso`, `cpio` and the `gzip` codec live outside the repository; the
pipeline only observes the bytes they produce and their exit status.
They are modelled as an environment of oracle functions. -/

/-- Behaviour of the external collaborators for one run.
`xorrisoExtract` maps the image bytes to the extracted tree (entries
relative to the output directory), or `none` for a non-zero exit.
`cpioAppend` maps the current raw archive bytes and the piped input
file bytes to the cpio exit status and the new archive bytes.
`gunzip`/`gzip` decode and encode the gzip stream (`none` = corrupt
stream).  `xorrisoRepack` maps the MBR bytes, the tree (relative
entries) and the volume name to the produced image bytes, or `none`
for a non-zero exit.  `filesToInject` is the content of the
`./files_to_inject` directory read by the orchestrator's shell
steps. -/
structure ExtEnv where
  xorrisoExtract : List Nat → Option (List (Path × Entry))
  cpioAppend : List Nat → Option (List Nat) → Nat × List Nat
  gunzip : List Nat → Option (List Nat)
  gzip : List Nat → List Nat
  xorrisoRepack : List Nat → List (Path × Entry) → String → Option (List Nat)
  filesToInject : List (Path × Entry)

/-- Place a tree of entries (paths relative to `dst`) into the
filesystem below `dst`. -/
def placeTree (fs : FS) (dst : Path) (tree : List (Path × Entry)) : FS :=
  tree.foldl (fun f re => f.setEntry (dst ++ re.1) re.2) fs

/-- The entries strictly below `root`, keyed relatively (the view of
the tree handed to the repacking tool). -/
def subtreeOf (fs : FS) (root : Path) : List (Path × Entry) :=
  fs.filterMap (fun pe =>
    if root.isPrefixOf pe.1 && !(pe.1 == root) then some (pe.1.drop root.length, pe.2)
    else none)

/-! ## `extract_iso` (injection.py lines 22-78) -/

/-- `extract_iso(path_to_output_dir, path_to_input_file)`: checks the
output directory and the input file, then extracts the whole image
tree into the output directory with `xorriso -osirrox on -indev ...
-extract / ...`; a non-zero exit becomes a `RuntimeError`. -/
def extract_iso (env : ExtEnv) (fs : FS)
    (path_to_output_dir path_to_input_file : Path) : PyResult Unit :=
  if !(fs.isDir path_to_output_dir) then .error .notADirectory fs
  else if !(fs.isFile path_to_input_file) then .error .fileNotFound fs
  else
    match env.xorrisoExtract
        ((fs.contentAt (fs.pyResolve path_to_input_file)).getD []) with
    | some tree => .ok () (placeTree fs path_to_output_dir tree)
    | none =>
      .error (.runtimeError "An error occurred while extracting the input file.") fs

/-! ## `append_file_contents_to_initrd_archive` (injection.py lines
81-172)

The three-argument form of `injection.py` is embedded (the
orchestrator calls it); `modiso.py` lines 106-187 duplicate it with an
absolute input path and a `shell=True` invocation that runs only
`echo`, never `cpio`. -/

/-- The external cpio process rewrites the raw archive file named by
`-F` in place, keeping the entry's mode (a fresh file with the default
mode in the degenerate case of a missing entry). -/
def cpioWriteBack (fs : FS) (extracted : Path) (bytes : List Nat) : FS :=
  match fs.lookup extracted with
  | some (Entry.file _ m) => fs.setEntry extracted (Entry.file bytes m)
  | _ => fs.setEntry extracted (Entry.file bytes 0o644)

/-- `append_file_contents_to_initrd_archive(archive, base_dir,
relative_path)`: name-checks the archive, widens permissions,
decompresses the gzip stream in place, deletes the compressed file,
appends one entry with `cpio -H newc -o -A -F` (the relative path
piped on stdin), recompresses and restores permissions 0444/0555.
The cpio step uses `subprocess.Popen` + `communicate` and its exit
status is never inspected (the `except CalledProcessError` handler is
unreachable for `Popen`), so a failing `cpio` does not interrupt the
operation. -/
def append_file_contents_to_initrd_archive (env : ExtEnv) (fs : FS)
    (path_to_initrd_archive base_dir relative_path_to_input_file : Path) :
    PyResult Unit :=
  if !(fs.isFile path_to_initrd_archive) then .error .fileNotFound fs
  else if !(pyName path_to_initrd_archive == "initrd.gz") then
    .error (.assertionError (pyName path_to_initrd_archive)) fs
  else
    match chmod fs path_to_initrd_archive 0o644 with
    | .error e fs => .error e fs
    | .ok _ fs =>
    match chmod fs (pyParent path_to_initrd_archive) 0o755 with
    | .error e fs => .error e fs
    | .ok _ fs =>
    let extracted := pyParent path_to_initrd_archive
      ++ [pyStripSuffix (pyName path_to_initrd_archive)]
    match openRead fs path_to_initrd_archive with
    | .error e fs => .error e fs
    | .ok gz fs =>
    match env.gunzip gz with
    | none =>
      -- a corrupt stream fails during `shutil.copyfileobj`, after the
      -- destination has been created empty by `open(..., "wb")`
      match writeFile fs extracted [] with
      | .error e fs => .error e fs
      | .ok _ fs => .error (.runtimeError "gzip stream error") fs
    | some raw =>
    match writeFile fs extracted raw with
    | .error e fs => .error e fs
    | .ok _ fs =>
    match unlink fs path_to_initrd_archive with
    | .error e fs => .error e fs
    | .ok _ fs =>
    let inputBytes :=
      fs.contentAt (fs.pyResolve (base_dir ++ relative_path_to_input_file))
    let cpioOut := env.cpioAppend ((fs.contentAt extracted).getD []) inputBytes
    let fs := cpioWriteBack fs extracted cpioOut.2
    match openRead fs extracted with
    | .error e fs => .error e fs
    | .ok raw2 fs =>
    match writeFile fs path_to_initrd_archive (env.gzip raw2) with
    | .error e fs => .error e fs
    | .ok _ fs =>
    match unlink fs extracted with
    | .error e fs => .error e fs
    | .ok _ fs =>
    match chmod fs path_to_initrd_archive 0o444 with
    | .error e fs => .error e fs
    | .ok _ fs =>
    match chmod fs (pyParent path_to_initrd_archive) 0o555 with
    | .error e fs => .error e fs
    | .ok _ fs => .ok () fs

/-! ## `find_all_files_under` (modiso.py lines 18-52)

`injection.py` imports a helper of the same name from `core.utils`,
which is not part of this repository snapshot; the in-repository
definition `_find_all_files_under` of `modiso.py` is embedded. -/

/-- The recursive body: for each child in directory order, a path that
`is_file` (a regular file, or a symbolic link to one — `is_file`
follows links) is collected as its resolved path; recursion descends
only into children that are directories and not symbolic links. -/
def findAllFilesUnderAux (fs : FS) : Nat → Path → List Path
  | 0, _ => []
  | fuel + 1, p =>
    (fs.iterdir p).foldl
      (fun acc sub =>
        if fs.isFile sub then acc ++ [fs.pyResolve sub]
        else if !(fs.isSymlink sub) && fs.isDir sub then
          acc ++ findAllFilesUnderAux fs fuel sub
        else acc)
      []

/-- `_find_all_files_under(parent_dir)`: resolves the directory,
raises `NotADirectoryError` if it is not one, and walks it. -/
def find_all_files_under (fs : FS) (parent_dir : Path) : PyResult (List Path) :=
  let parent := fs.pyResolve parent_dir
  if !(fs.isDir parent) then .error .notADirectory fs
  else .ok (findAllFilesUnderAux fs fs.walkFuel parent) fs

/-! ## `regenerate_iso_md5sums_file` (injection.py lines 175-242) -/

/-- The manifest-writing loop: hash each collected path in order and
append `<hexdigest><two spaces><relative path>\n`.  Returns the text
written before a failure, together with the failure if any (an
unreadable file raises `PermissionError`; a path outside the root
raises `ValueError` in `relative_to`). -/
def md5sumLoop (fs : FS) (root : Path) : List Path → String → String × Option PyError
  | [], acc => (acc, none)
  | q :: rest, acc =>
    match openRead fs q with
    | .error e _ => (acc, some e)
    | .ok c _ =>
      match relTo q root with
      | none => (acc, some .valueError)
      | some r =>
        md5sumLoop fs root rest
          (acc ++ MD5.hexdigest c ++ "  " ++ String.intercalate "/" r ++ "\n")

/-- `regenerate_iso_md5sums_file(root)`: checks the root directory,
widens permissions on `md5sum.txt` and the root, deletes the old
manifest, enumerates all files under the root, then writes the new
manifest and restores permissions 0444/0555.  The Python function
returns `None`; the embedding returns the list of hashed paths as the
result value, for use in specifications (the filesystem effect is
unchanged by this). -/
def regenerate_iso_md5sums_file (fs : FS)
    (path_to_extracted_iso_root : Path) : PyResult (List Path) :=
  let root := fs.pyResolve path_to_extracted_iso_root
  if !(fs.isDir root) then .error .notADirectory fs
  else
    let md5p := root ++ ["md5sum.txt"]
    match chmod fs md5p 0o644 with
    | .error e fs => .error e fs
    | .ok _ fs =>
    match chmod fs root 0o755 with
    | .error e fs => .error e fs
    | .ok _ fs =>
    match unlink fs md5p with
    | .error e fs => .error e fs
    | .ok _ fs =>
    match find_all_files_under fs root with
    | .error e fs => .error e fs
    | .ok subpaths fs =>
    match writeFile fs md5p [] with
    | .error e fs => .error e fs
    | .ok _ fs =>
    let r := md5sumLoop fs root subpaths ""
    match writeFile fs md5p (encodeStr r.1) with
    | .error e fs => .error e fs
    | .ok _ fs =>
    match r.2 with
    | some e => .error e fs
    | none =>
    match chmod fs md5p 0o444 with
    | .error e fs => .error e fs
    | .ok _ fs =>
    match chmod fs root 0o555 with
    | .error e fs => .error e fs
    | .ok _ fs => .ok subpaths fs

/-! ## `extract_mbr_from_iso` (injection.py lines 245-301) -/

/-- `extract_mbr_from_iso(output_file, source_iso)`: fails if the
output exists, if the source is not a file, or if its extension is
neither `.iso` nor `.img`; otherwise opens the source with mode
`"r+b"` (read *and write* permission required) and writes its first
432 bytes to the newly created output file. -/
def extract_mbr_from_iso (fs : FS)
    (path_to_output_file path_to_source_iso : Path) : PyResult Unit :=
  if fs.pathExists path_to_output_file then .error .fileExists fs
  else if !(fs.isFile path_to_source_iso) then .error .fileNotFound fs
  else if !(pySuffix (pyName path_to_source_iso) == ".iso"
      || pySuffix (pyName path_to_source_iso) == ".img") then
    .error (.runtimeError "Input file is not an image file.") fs
  else
    match openReadWrite fs path_to_source_iso with
    | .error e fs => .error e fs
    | .ok content fs =>
    match writeFile fs path_to_output_file (content.take 432) with
    | .error e fs => .error e fs
    | .ok _ fs => .ok () fs

/-! ## `repack_iso` (injection.py lines 304-410) -/

/-- Python regex `\w` on a `str` pattern is Unicode-aware.  It is
modelled exactly on every codepoint below U+0180: the ASCII
alphanumerics and underscore; the nine further Latin-1 word characters
U+00AA (feminine ordinal), U+00B2 U+00B3 U+00B9 (superscript digits),
U+00B5 (micro sign), U+00BA (masculine ordinal) and U+00BC..U+00BE
(vulgar fractions), all alphanumeric for Unicode; and the codepoint
range U+00C0..U+017F (the Latin-1 Supplement and Latin Extended-A
letters, the whole range except the two operators U+00D7 and U+00F7).
Codepoints at U+0180 and above are outside the fragment exercised
here, and the theorems about volume names restrict to this range. -/
def pyWordChar (c : Char) : Bool :=
  (c ≥ 'A' && c ≤ 'Z') || (c ≥ 'a' && c ≤ 'z') || (c ≥ '0' && c ≤ '9')
    || c == '_'
    || c.toNat == 0xAA || c.toNat == 0xB2 || c.toNat == 0xB3
    || c.toNat == 0xB5 || c.toNat == 0xB9 || c.toNat == 0xBA
    || (0xBC ≤ c.toNat && c.toNat ≤ 0xBE)
    || (0xC0 ≤ c.toNat && c.toNat ≤ 0x17F && c.toNat != 0xD7 && c.toNat != 0xF7)

/-- A character accepted by the volume-name check of `repack_iso`:
the complement of the regex `[^\w .-]`. -/
def repackAllowedChar (c : Char) : Bool :=
  pyWordChar c || c == ' ' || c == '.' || c == '-'

/-- The character class `[A-Za-z0-9 ._-]` stated by the specification
for filesystem names (for comparison with `repackAllowedChar`). -/
def specAllowedChar (c : Char) : Bool :=
  (c ≥ 'A' && c ≤ 'Z') || (c ≥ 'a' && c ≤ 'z') || (c ≥ '0' && c ≤ '9')
    || c == ' ' || c == '.' || c == '_' || c == '-'

/-- The message of the `RuntimeError` naming an invalid volume-name
character (quoting punctuation omitted). -/
def invalidCharMsg (c : Char) : String :=
  "Invalid character in filesystem name: " ++ String.mk [c]

/-- `repack_iso(output_iso, mbr_data_file, input_files_root_dir,
created_iso_filesystem_name)`: checks the output is fresh, the MBR
file and the tree exist, rejects the first volume-name character
matching `[^\w .-]`, then rebuilds the image with `xorriso -as
mkisofs ...`; on success the output file holds the produced bytes. -/
def repack_iso (env : ExtEnv) (fs : FS)
    (path_to_output_iso path_to_mbr_data_file path_to_input_files_root_dir : Path)
    (created_iso_filesystem_name : String) : PyResult Unit :=
  if fs.pathExists path_to_output_iso then .error .fileExists fs
  else if !(fs.isFile path_to_mbr_data_file) then .error .fileNotFound fs
  else if !(fs.isDir path_to_input_files_root_dir) then .error .notADirectory fs
  else
    match created_iso_filesystem_name.toList.find?
        (fun c => !(repackAllowedChar c)) with
    | some c => .error (.runtimeError (invalidCharMsg c)) fs
    | none =>
      match env.xorrisoRepack
          ((fs.contentAt (fs.pyResolve path_to_mbr_data_file)).getD [])
          (subtreeOf fs path_to_input_files_root_dir)
          created_iso_filesystem_name with
      | some bytes =>
        .ok () (fs.setEntry path_to_output_iso (Entry.file bytes 0o644))
      | none =>
        .error (.runtimeError "Failed while repacking ISO from source files.") fs

/-! ## `inject_files_into_iso` (injection.py lines 413-538)

The orchestrator's ad-hoc `os.system` shell steps never inspect their
exit status, so they are modelled as total filesystem transforms that
do nothing when their target is missing. -/

/-- `chmod +w p` / `chmod -w p` (exit status ignored): toggle the
owner write bit on the entry reached, no-op on a missing path. -/
def sysChmodWrite (fs : FS) (p : Path) (add : Bool) : FS :=
  match FS.resolveFinal fs (FS.fuelOf fs) p with
  | some (q, Entry.file c m) =>
    fs.setEntry q (Entry.file c (if add then m ||| 0o200 else m &&& 0o577))
  | some (q, Entry.dir m) =>
    fs.setEntry q (Entry.dir (if add then m ||| 0o200 else m &&& 0o577))
  | _ => fs

/-- `chmod -R +w p` / `chmod -R -w p` (exit status ignored): toggle
the owner write bit on `p` and everything below it. -/
def sysChmodWriteRec (fs : FS) (p : Path) (add : Bool) : FS :=
  fs.map (fun pe =>
    if p.isPrefixOf pe.1 then
      match pe.2 with
      | Entry.file c m =>
        (pe.1, Entry.file c (if add then m ||| 0o200 else m &&& 0o577))
      | Entry.dir m =>
        (pe.1, Entry.dir (if add then m ||| 0o200 else m &&& 0o577))
      | e => (pe.1, e)
    else pe)

/-- `rm -rf p`, and also `TemporaryDirectory.cleanup()`: remove the
entry at `p` and everything below it; never fails. -/
def removeTree (fs : FS) (p : Path) : FS :=
  fs.filter (fun pe => !(p.isPrefixOf pe.1))

/-- Create a directory if nothing is stored at `p` yet. -/
def ensureDir (fs : FS) (p : Path) : FS :=
  match fs.lookup p with
  | some _ => fs
  | none => fs.setEntry p (Entry.dir 0o755)

/-- `mkdir -p p` (exit status ignored): create each missing prefix
directory of `p`. -/
def sysMkdirP (fs : FS) (p : Path) : FS :=
  (List.range p.length).foldl (fun f i => ensureDir f (p.take (i + 1))) fs

/-- `cp src dst` for a single file (exit status ignored): copy the
given source entry to `dst` when it is a file, no-op otherwise. -/
def sysCopyFile (fs : FS) (src : Option Entry) (dst : Path) : FS :=
  match src with
  | some (Entry.file c _) => fs.setEntry dst (Entry.file c 0o644)
  | _ => fs

/-- One pass of `sed "s@pat@rep@g"` over a byte string
(fuel-bounded scan; every occurrence replaced left to right). -/
def replaceBytesAux (pat rep : List Nat) : Nat → List Nat → List Nat
  | _, [] => []
  | 0, s => s
  | fuel + 1, x :: xs =>
    if pat.isPrefixOf (x :: xs) && !pat.isEmpty then
      rep ++ replaceBytesAux pat rep fuel ((x :: xs).drop pat.length)
    else
      x :: replaceBytesAux pat rep fuel xs

/-- `sed "s@pat@rep@g"` over a byte string. -/
def replaceBytes (pat rep s : List Nat) : List Nat :=
  replaceBytesAux pat rep s.length s

/-- `sed -i` on one file (exit status ignored): rewrite its contents
in place, no-op when the path is not a file. -/
def sysSedFile (fs : FS) (p : Path) (pat rep : List Nat) : FS :=
  match fs.lookup p with
  | some (Entry.file c m) => fs.setEntry p (Entry.file (replaceBytes pat rep c) m)
  | _ => fs

/-- `sed -i dir/*` (exit status ignored): rewrite every file directly
below `dir`. -/
def sysSedDirFiles (fs : FS) (dir : Path) (pat rep : List Nat) : FS :=
  fs.map (fun pe =>
    match pe.2 with
    | Entry.file c m =>
      if pe.1.length == dir.length + 1 && dir.isPrefixOf pe.1 then
        (pe.1, Entry.file (replaceBytes pat rep c) m)
      else pe
    | _ => pe)

/-- Python `pat in s` on strings: substring containment. -/
def hasInfix (pat : List Char) : List Char → Bool
  | [] => pat.isEmpty
  | x :: xs => pat.isPrefixOf (x :: xs) || hasInfix pat xs

/-- The fresh path handed out by `TemporaryDirectory()` for the
extracted image tree. -/
def tmpExtractedDir : Path := ["tmp", "tmp_extracted_iso"]

/-- The fresh path handed out by `TemporaryDirectory()` for the MBR
file. -/
def tmpMbrDir : Path := ["tmp", "tmp_mbr"]

/-- The fresh path handed out by `TemporaryDirectory()` for the
staging tree fed to the initrd patch. -/
def tmpFileDir : Path := ["tmp", "tmp_files"]

/-- `TemporaryDirectory()`: a fresh private directory (mode 0700). -/
def mkTempDir (fs : FS) (p : Path) : FS := fs.setEntry p (Entry.dir 0o700)

/-- `inject_files_into_iso(output_iso, input_iso, iso_filesystem_name)`:
the five-stage pipeline.  Validates paths; extracts the image into a
temporary tree; extracts the MBR into a temporary file; applies the
shell tree edits (xen removal, `files_to_inject` copy, placeholder
substitutions); stages and appends the logo into the initrd;
regenerates `md5sum.txt`; repacks into the output image; and — only
after all stages returned normally — cleans up the three temporary
directories.  A raised exception propagates immediately, before the
cleanup calls at the end of the function body are reached.  (The
`printer` argument only produces terminal output and is omitted.) -/
def inject_files_into_iso (env : ExtEnv) (fs : FS)
    (path_to_output_iso_file path_to_input_iso_file : Path)
    (iso_filesystem_name : String) : PyResult Unit :=
  if !(fs.isFile path_to_input_iso_file) then .error .fileNotFound fs
  else if fs.isFile path_to_output_iso_file then .error .fileExists fs
  else if !(fs.isDir (pyParent path_to_output_iso_file)) then
    .error .notADirectory fs
  else
    let fs := mkTempDir fs tmpExtractedDir
    match extract_iso env fs tmpExtractedDir path_to_input_iso_file with
    | .error e fs => .error e fs
    | .ok _ fs =>
    let fs := mkTempDir fs tmpMbrDir
    match extract_mbr_from_iso fs (tmpMbrDir ++ ["mbr.bin"])
        path_to_input_iso_file with
    | .error e fs => .error e fs
    | .ok _ fs =>
    let name := pyName path_to_input_iso_file
    let arch := if hasInfix "amd64".toList name.toList then "amd" else "386"
    let dist :=
      if hasInfix "debian-12".toList name.toList then "bookworm" else "bullseye"
    let testing := if dist == "bookworm" then "testing" else ""
    let instDir := tmpExtractedDir ++ ["install." ++ arch]
    let fs := sysChmodWrite fs instDir true
    let fs := sysChmodWriteRec fs (instDir ++ ["xen"]) true
    let fs := removeTree fs (instDir ++ ["xen"])
    let fs := sysChmodWrite fs instDir false
    let fs := sysChmodWrite fs (tmpExtractedDir ++ ["boot", "grub"]) true
    let fs := sysChmodWrite fs (tmpExtractedDir ++ ["boot", "grub", "grub.cfg"]) true
    let fs := sysChmodWriteRec fs (tmpExtractedDir ++ ["isolinux"]) true
    let fs := placeTree fs tmpExtractedDir env.filesToInject
    let fs := sysSedFile fs (tmpExtractedDir ++ ["isolinux", "menu.cfg"])
      (encodeStr "__ARCH__") (encodeStr arch)
    let fs := sysSedDirFiles fs (tmpExtractedDir ++ ["preseeds"])
      (encodeStr "__DIST__") (encodeStr dist)
    let fs := sysSedDirFiles fs (tmpExtractedDir ++ ["preseeds"])
      (encodeStr "__TESTING__") (encodeStr testing)
    let fs := sysChmodWrite fs (tmpExtractedDir ++ ["boot", "grub"]) false
    let fs := sysChmodWrite fs (tmpExtractedDir ++ ["boot", "grub", "grub.cfg"]) false
    let fs := sysChmodWriteRec fs (tmpExtractedDir ++ ["isolinux"]) false
    let fs := sysChmodWriteRec fs (tmpExtractedDir ++ ["preseeds"]) false
    let fs := mkTempDir fs tmpFileDir
    let fs := sysMkdirP fs (tmpFileDir ++ ["usr", "share", "graphics"])
    let fs := sysCopyFile fs (FS.lookup env.filesToInject ["logo.png"])
      (tmpFileDir ++ ["usr", "share", "graphics", "logo_debian.png"])
    match append_file_contents_to_initrd_archive env fs
        (instDir ++ ["gtk", "initrd.gz"]) tmpFileDir
        ["usr", "share", "graphics", "logo_debian.png"] with
    | .error e fs => .error e fs
    | .ok _ fs =>
    match regenerate_iso_md5sums_file fs tmpExtractedDir with
    | .error e fs => .error e fs
    | .ok _ fs =>
    match repack_iso env fs path_to_output_iso_file (tmpMbrDir ++ ["mbr.bin"])
        tmpExtractedDir iso_filesystem_name with
    | .error e fs => .error e fs
    | .ok _ fs =>
    let fs := removeTree fs tmpFileDir
    let fs := removeTree fs tmpMbrDir
    let fs := removeTree fs tmpExtractedDir
    .ok () fs

/-! ## Auxiliary result projections -/

namespace PyResult

/-- The result value, with a default for the exception case. -/
def valD : PyResult α → α → α
  | .ok v _, _ => v
  | .error _ _, d => d

end PyResult

/-- Whether an entry is a symbolic link. -/
def Entry.isLink : Entry → Bool
  | .symlink _ => true
  | _ => false

/-- A filesystem without symbolic links (the shape of every tree the
orchestrator actually handles). -/
def NoLinks (fs : FS) : Prop := ∀ pe ∈ fs, pe.2.isLink = false

/-- Sequential concatenation of written lines (specification-side
rendering of the manifest text). -/
def concatStrs : List String → String
  | [] => ""
  | s :: rest => s ++ concatStrs rest

/-! ## Association-list lemmas -/

/-! ## Concrete fixtures used by the per-claim theorems, witnesses and
counterexamples -/

/-- An environment whose external tools are never consulted (or fail). -/
def envNull : ExtEnv :=
  { xorrisoExtract := fun _ => none
    cpioAppend := fun a _ => (0, a)
    gunzip := fun _ => none
    gzip := fun b => b
    xorrisoRepack := fun _ _ _ => none
    filesToInject := [] }

/-- Fixture for the C8 witness: the output path is an existing file. -/
def fsC8 : FS :=
  [(["o"], Entry.dir 0o755),
   (["o", "mbr.bin"], Entry.file [1, 2] 0o644),
   (["d"], Entry.dir 0o755),
   (["d", "img.iso"], Entry.file [3, 4, 5] 0o644)]

/-- Fixture for the C6 witness: an archive named `initrd.img`. -/
def fsC6 : FS :=
  [(["t"], Entry.dir 0o755),
   (["t", "initrd.img"], Entry.file [1] 0o644)]

/-- Fixture for the C1 witness: a readable and writable 440-byte
source image. -/
def fsC1w : FS :=
  [(["d"], Entry.dir 0o755),
   (["d", "img.iso"], Entry.file (List.replicate 440 7) 0o644),
   (["o"], Entry.dir 0o755)]

/-- Fixture refuting C1 as stated: the source image is read-only
(mode 0444), which every condition named by the claim allows. -/
def fsC1cx : FS :=
  [(["d"], Entry.dir 0o755),
   (["d", "img.iso"], Entry.file (List.replicate 432 7) 0o444),
   (["o"], Entry.dir 0o755)]

/-- Fixture for the C4 witness. -/
def fsC4w : FS :=
  [(["mbr.bin"], Entry.file [1] 0o644),
   (["tree"], Entry.dir 0o555)]

/-- Environment for the C4 counterexample: the repacking tool
succeeds, producing the bytes `[5]`. -/
def envC4 : ExtEnv :=
  { xorrisoExtract := fun _ => none
    cpioAppend := fun a _ => (0, a)
    gunzip := fun _ => none
    gzip := fun b => b
    xorrisoRepack := fun _ _ _ => some [5]
    filesToInject := [] }

/-- Fixture for the C4 counterexample. -/
def fsC4 : FS :=
  [(["mbr.bin"], Entry.file [1] 0o644),
   (["tree"], Entry.dir 0o555)]

/-- Environment for C3: the cpio tool exits with status 1 and writes
the bytes `[9]` into the raw archive. -/
def envC3 : ExtEnv :=
  { xorrisoExtract := fun _ => none
    cpioAppend := fun _ _ => (1, [9])
    gunzip := fun b => some b
    gzip := fun b => b
    xorrisoRepack := fun _ _ _ => none
    filesToInject := [] }

/-- Fixture for C3: a valid `initrd.gz` archive. -/
def fsC3 : FS :=
  [(["t"], Entry.dir 0o555),
   (["t", "initrd.gz"], Entry.file [3, 3] 0o444),
   (["base"], Entry.dir 0o755)]

/-- Environment for the C2 witness: every external tool succeeds; the
extracted tree holds the manifest and the initrd expected by the
pipeline. -/
def envC2w : ExtEnv :=
  { xorrisoExtract := fun _ => some
      [(["md5sum.txt"], Entry.file [] 0o444),
       (["install.386"], Entry.dir 0o555),
       (["install.386", "gtk"], Entry.dir 0o555),
       (["install.386", "gtk", "initrd.gz"], Entry.file [7] 0o444)]
    cpioAppend := fun a _ => (0, a ++ [8])
    gunzip := fun b => some b
    gzip := fun b => b
    xorrisoRepack := fun _ _ _ => some [2, 2]
    filesToInject := [(["logo.png"], Entry.file [5] 0o644)] }

/-- Fixture for the C2 witness: a 432-byte input image and an output
directory. -/
def fsC2w : FS :=
  [(["home"], Entry.dir 0o755),
   (["home", "debian.iso"], Entry.file (List.replicate 432 1) 0o644),
   (["out"], Entry.dir 0o755)]

/-- Fixture for the C2 counterexample: the input file lacks an image
extension, so the MBR-extraction stage raises after the extraction
stage has already created and filled the temporary tree. -/
def fsC2cx : FS :=
  [(["home"], Entry.dir 0o755),
   (["home", "image.raw"], Entry.file [1, 2, 3] 0o644),
   (["out"], Entry.dir 0o755)]

/-- Environment for the C2 counterexample: extraction succeeds (with
an empty tree). -/
def envC2cx : ExtEnv :=
  { xorrisoExtract := fun _ => some []
    cpioAppend := fun a _ => (0, a)
    gunzip := fun b => some b
    gzip := fun b => b
    xorrisoRepack := fun _ _ _ => none
    filesToInject := [] }

/-- Fixture for the C7 witness. -/
def fsC7w : FS :=
  [(["r"], Entry.dir 0o755),
   (["r", "md5sum.txt"], Entry.file [] 0o444),
   (["r", "b.txt"], Entry.file [98] 0o644)]

/-- The final state of the C7 witness run. -/
def fsC7wFinal : FS :=
  [(["r"], Entry.dir 0o555),
   (["r", "b.txt"], Entry.file [98] 0o644),
   (["r", "md5sum.txt"],
    Entry.file (encodeStr "92eb5ffee6ae2fec3ad71c777531578f  b.txt\n") 0o444)]

/-- Fixture for the C7 counterexample: `secret` is unreadable
(mode 0000), so its digest computation fails partway through. -/
def fsC7cx : FS :=
  [(["r"], Entry.dir 0o555),
   (["r", "md5sum.txt"], Entry.file [] 0o444),
   (["r", "secret"], Entry.file [1] 0o000)]

/-- Fixture for the C10 witness. -/
def fsC10w : FS :=
  [(["r"], Entry.dir 0o755),
   (["r", "md5sum.txt"], Entry.file [] 0o444),
   (["r", "c.txt"], Entry.file [99] 0o644)]

/-- Fixture for the C5 witness: a single 2-byte file `a.txt`
(contents "hi"). -/
def fsC5w : FS :=
  [(["r"], Entry.dir 0o755),
   (["r", "md5sum.txt"], Entry.file [] 0o444),
   (["r", "a.txt"], Entry.file [104, 105] 0o644)]

/-- The final state of the C5 witness run. -/
def fsC5wFinal : FS :=
  [(["r"], Entry.dir 0o555),
   (["r", "a.txt"], Entry.file [104, 105] 0o644),
   (["r", "md5sum.txt"],
    Entry.file (encodeStr "49f68a5c8493ec2c0bf489821c21fc3b  a.txt\n") 0o444)]

/-- Fixture for the C5 counterexample: one regular file and a direct
symbolic link to it. -/
def fsC5cx : FS :=
  [(["r"], Entry.dir 0o755),
   (["r", "md5sum.txt"], Entry.file [] 0o444),
   (["r", "a.txt"], Entry.file [104, 105] 0o644),
   (["r", "link"], Entry.symlink ["r", "a.txt"])]

/-- C9 fixture: an environment whose external tools always succeed and
whose extracted tree and injected tree contain no symbolic links. -/
def envC9 : ExtEnv :=
  { xorrisoExtract := fun _ => some [(["f.txt"], Entry.file [1] 0o444)]
    cpioAppend := fun a _ => (0, a)
    gunzip := fun b => some b
    gzip := fun b => b
    xorrisoRepack := fun _ _ _ => some [3, 4]
    filesToInject := [(["logo.png"], Entry.file [9] 0o644)] }

/-- C9 fixture: a filesystem holding the read-only source image and a
work directory. -/
def fsC9 : FS :=
  [(["d"], Entry.dir 0o755),
   (["d", "src.iso"], Entry.file [7, 7] 0o444),
   (["work"], Entry.dir 0o755)]

example : MD5.hexdigest [] = "d41d8cd98f00b204e9800998ecf8427e" := by rfl
example : MD5.hexdigest [97, 98, 99] = "900150983cd24fb0d6963f7d28e17f72" := by rfl
example : MD5.hexdigest [104, 105] = "49f68a5c8493ec2c0bf489821c21fc3b" := by rfl

theorem lookup_mem {fs : FS} {p : Path} {e : Entry}
    (h : fs.lookup p = some e) : (p, e) ∈ fs := by
  induction fs with
  | nil => simp [FS.lookup] at h
  | cons pe rest ih =>
    by_cases hpe : pe.1 = p
    · simp only [FS.lookup, hpe, if_pos] at h
      cases pe with
      | mk p1 e1 =>
        simp only at hpe
        injection h with h
        subst hpe; subst h; exact List.mem_cons_self _ _
    · simp only [FS.lookup, hpe, if_neg, not_false_iff] at h
      exact List.mem_cons_of_mem _ (ih h)

theorem lookup_append (fs1 fs2 : FS) (p : Path) :
    FS.lookup (fs1 ++ fs2) p =
      match FS.lookup fs1 p with
      | some e => some e
      | none => FS.lookup fs2 p := by
  induction fs1 with
  | nil => simp [FS.lookup]
  | cons pe rest ih =>
    by_cases hpe : pe.1 = p
    · simp [FS.lookup, hpe]
    · simp only [List.cons_append, FS.lookup, hpe, if_neg, not_false_iff]
      exact ih

theorem lookup_map_replace (fs : FS) (q : Path) (e : Entry) (p : Path) :
    FS.lookup (fs.map (fun pe => if pe.1 = q then (q, e) else pe)) p =
      if p = q then (fs.lookup q).map (fun _ => e) else fs.lookup p := by
  induction fs with
  | nil => simp [FS.lookup]
  | cons pe rest ih =>
    by_cases hpe : pe.1 = q
    · by_cases hpq : p = q
      · subst hpq
        simp [FS.lookup, hpe]
      · have hqp : ¬(q = p) := fun h => hpq h.symm
        have hpep : ¬(pe.1 = p) := fun h => hpq (hpe ▸ h ▸ rfl)
        simp [FS.lookup, hpe, hpq, hqp, hpep, ih]
    · by_cases hpp : pe.1 = p
      · have hpq : ¬(p = q) := fun h => hpe (hpp.trans h)
        simp [FS.lookup, hpe, hpp, hpq]
      · by_cases hpq : p = q
        · subst hpq
          simp [FS.lookup, hpe, hpp, ih]
        · simp [FS.lookup, hpe, hpp, hpq, ih]

theorem lookup_setEntry (fs : FS) (q : Path) (e : Entry) (p : Path) :
    (fs.setEntry q e).lookup p = if p = q then some e else fs.lookup p := by
  unfold FS.setEntry
  by_cases hq : (fs.lookup q).isSome
  · simp only [hq, if_pos]
    rw [lookup_map_replace]
    by_cases hpq : p = q
    · subst hpq
      cases h : fs.lookup p with
      | none => rw [h] at hq; simp at hq
      | some e0 => simp
    · simp [hpq]
  · simp only [hq, if_neg, Bool.false_eq_true, not_false_iff]
    rw [lookup_append]
    have hnone : fs.lookup q = none := by
      cases h : fs.lookup q
      · rfl
      · rw [h] at hq; simp at hq
    by_cases hpq : p = q
    · subst hpq
      simp [hnone, FS.lookup]
    · have hqp : ¬(q = p) := fun h => hpq h.symm
      cases h : fs.lookup p with
      | none => simp [FS.lookup, hqp, hpq]
      | some e0 => simp [hpq]

theorem lookup_eraseKey (fs : FS) (q p : Path) :
    (fs.eraseKey q).lookup p = if p = q then none else fs.lookup p := by
  induction fs with
  | nil => simp [FS.eraseKey, FS.lookup]
  | cons pe rest ih =>
    by_cases hpe : pe.1 = q
    · by_cases hpq : p = q
      · subst hpq
        simp only [FS.eraseKey, hpe, if_pos]
        simpa using ih
      · have hpep : ¬(pe.1 = p) := fun h => hpq ((hpe ▸ h ▸ rfl : p = q))
        have hqp : ¬(q = p) := fun h => hpq h.symm
        simp [FS.eraseKey, hpe, FS.lookup, hpep, hpq, hqp, ih]
    · by_cases hpp : pe.1 = p
      · have hpq : ¬(p = q) := fun h => hpe (hpp.trans h)
        simp [FS.eraseKey, hpe, FS.lookup, hpp, hpq]
      · by_cases hpq : p = q
        · subst hpq
          simpa [FS.eraseKey, hpe, FS.lookup, hpp] using ih
        · simp [FS.eraseKey, hpe, FS.lookup, hpp, hpq, ih]

/-! ## Resolution and link-freeness lemmas -/

theorem resolveFinal_lookup {fs : FS} :
    ∀ {n : Nat} {p q : Path} {e : Entry},
      FS.resolveFinal fs n p = some (q, e) →
      fs.lookup q = some e ∧ e.isLink = false := by
  intro n
  induction n with
  | zero => intro p q e h; simp [FS.resolveFinal] at h
  | succ n ih =>
    intro p q e h
    unfold FS.resolveFinal at h
    cases hl : fs.lookup p with
    | none => rw [hl] at h; simp at h
    | some e0 =>
      rw [hl] at h
      cases e0 with
      | symlink t => exact ih h
      | file c m =>
        simp only at h
        injection h with h
        injection h with h1 h2
        subst h1; subst h2
        exact ⟨hl, rfl⟩
      | dir m =>
        simp only at h
        injection h with h
        injection h with h1 h2
        subst h1; subst h2
        exact ⟨hl, rfl⟩

theorem resolveFinal_of_nonlink {fs : FS} {p : Path} {e : Entry}
    (h : fs.lookup p = some e) (hl : e.isLink = false) (n : Nat) :
    FS.resolveFinal fs (n + 1) p = some (p, e) := by
  unfold FS.resolveFinal
  rw [h]
  cases e with
  | symlink t => simp [Entry.isLink] at hl
  | file c m => rfl
  | dir m => rfl

theorem noLinks_lookup {fs : FS} (hfs : NoLinks fs) {p : Path} {e : Entry}
    (h : fs.lookup p = some e) : e.isLink = false :=
  hfs (p, e) (lookup_mem h)

theorem resolveFinal_noLinks {fs : FS} (hfs : NoLinks fs) (n : Nat) (p : Path) :
    FS.resolveFinal fs (n + 1) p = (fs.lookup p).map (fun e => (p, e)) := by
  cases hl : fs.lookup p with
  | none => unfold FS.resolveFinal; rw [hl]; rfl
  | some e =>
    rw [resolveFinal_of_nonlink hl (noLinks_lookup hfs hl) n]
    rfl

theorem pyResolve_noLinks {fs : FS} (hfs : NoLinks fs) (p : Path) :
    fs.pyResolve p = p := by
  unfold FS.pyResolve FS.fuelOf
  rw [resolveFinal_noLinks hfs]
  cases fs.lookup p <;> rfl

theorem pyResolve_of_nonlink {fs : FS} {p : Path} {e : Entry}
    (h : fs.lookup p = some e) (hl : e.isLink = false) :
    fs.pyResolve p = p := by
  unfold FS.pyResolve FS.fuelOf
  rw [resolveFinal_of_nonlink h hl]

theorem noLinks_setEntry {fs : FS} {q : Path} {e : Entry}
    (hfs : NoLinks fs) (he : e.isLink = false) : NoLinks (fs.setEntry q e) := by
  intro pe hpe
  unfold FS.setEntry at hpe
  by_cases hq : (fs.lookup q).isSome
  · rw [if_pos hq] at hpe
    rcases List.mem_map.mp hpe with ⟨pe0, hmem, heq⟩
    by_cases h0 : pe0.1 = q
    · rw [if_pos h0] at heq
      rw [← heq]
      exact he
    · rw [if_neg h0] at heq
      rw [← heq]
      exact hfs pe0 hmem
  · rw [if_neg hq] at hpe
    rcases List.mem_append.mp hpe with h | h
    · exact hfs pe h
    · rcases List.mem_singleton.mp h with rfl
      exact he

theorem mem_eraseKey {fs : FS} {q : Path} {pe : Path × Entry}
    (h : pe ∈ fs.eraseKey q) : pe ∈ fs := by
  induction fs with
  | nil => simp [FS.eraseKey] at h
  | cons pe0 rest ih =>
    unfold FS.eraseKey at h
    by_cases h0 : pe0.1 = q
    · rw [if_pos h0] at h
      exact List.mem_cons_of_mem _ (ih h)
    · rw [if_neg h0] at h
      rcases List.mem_cons.mp h with rfl | h
      · exact List.mem_cons_self _ _
      · exact List.mem_cons_of_mem _ (ih h)

theorem noLinks_eraseKey {fs : FS} {q : Path} (hfs : NoLinks fs) :
    NoLinks (fs.eraseKey q) :=
  fun pe hpe => hfs pe (mem_eraseKey hpe)

theorem noLinks_filter {fs : FS} {f : Path × Entry → Bool} (hfs : NoLinks fs) :
    NoLinks (fs.filter f) :=
  fun pe hpe => hfs pe (List.mem_filter.mp hpe).1

/-- `lookup` is unchanged by a filter that keeps every entry stored at
the looked-up path. -/
theorem lookup_filter_of_kept {fs : FS} {f : Path × Entry → Bool} {p : Path}
    (hf : ∀ e, f (p, e) = true) :
    FS.lookup (fs.filter f) p = fs.lookup p := by
  induction fs with
  | nil => simp [FS.lookup]
  | cons pe rest ih =>
    by_cases hpe : pe.1 = p
    · have : f pe = true := by
        cases pe with
        | mk p1 e1 =>
          simp only at hpe
          subst hpe
          exact hf e1
      simp [List.filter_cons, this, FS.lookup, hpe]
    · cases hfp : f pe with
      | true => simp [List.filter_cons, hfp, FS.lookup, hpe, ih]
      | false => simp [List.filter_cons, hfp, FS.lookup, hpe, ih]

/-- `lookup` through a key-preserving map. -/
theorem lookup_map_keyFixed {fs : FS} {f : Path × Entry → Path × Entry}
    (hf : ∀ pe, (f pe).1 = pe.1) (p : Path) :
    FS.lookup (fs.map f) p = (fs.lookup p).map (fun e => (f (p, e)).2) := by
  induction fs with
  | nil => simp [FS.lookup]
  | cons pe rest ih =>
    by_cases hpe : pe.1 = p
    · have h1 : (f pe).1 = p := (hf pe).trans hpe
      have h2 : f pe = f (p, pe.2) := by
        cases pe with
        | mk p1 e1 => simp only at hpe; subst hpe; rfl
      rw [h2] at h1
      simp [FS.lookup, List.map_cons, h1, h2, hpe]
    · have h1 : ¬((f pe).1 = p) := fun h => hpe ((hf pe) ▸ h)
      simp [FS.lookup, List.map_cons, h1, hpe, ih]

/-! ## Frame and link-freeness lemmas for the primitive operations -/

theorem chmod_frame {fs : FS} {q : Path} {m : Nat} {p : Path}
    (hfs : NoLinks fs) (hne : p ≠ q) :
    (PyResult.fsOf (chmod fs q m)).lookup p = fs.lookup p := by
  unfold chmod
  rw [show FS.fuelOf fs = fs.length + 1 from rfl, resolveFinal_noLinks hfs]
  cases hl : fs.lookup q with
  | none => rfl
  | some e =>
    cases e with
    | file c m0 => simp [PyResult.fsOf, lookup_setEntry, hne]
    | dir m0 => simp [PyResult.fsOf, lookup_setEntry, hne]
    | symlink t =>
      have := noLinks_lookup hfs hl
      simp [Entry.isLink] at this

theorem chmod_noLinks {fs : FS} {q : Path} {m : Nat} (hfs : NoLinks fs) :
    NoLinks (PyResult.fsOf (chmod fs q m)) := by
  unfold chmod
  rw [show FS.fuelOf fs = fs.length + 1 from rfl, resolveFinal_noLinks hfs]
  cases hl : fs.lookup q with
  | none => exact hfs
  | some e =>
    cases e with
    | file c m0 => exact noLinks_setEntry hfs (by rfl)
    | dir m0 => exact noLinks_setEntry hfs (by rfl)
    | symlink t =>
      have := noLinks_lookup hfs hl
      simp [Entry.isLink] at this

theorem unlink_frame {fs : FS} {q p : Path} (hne : p ≠ q) :
    (PyResult.fsOf (unlink fs q)).lookup p = fs.lookup p := by
  unfold unlink
  cases hl : fs.lookup q with
  | none => rfl
  | some e =>
    cases e with
    | file c m0 => simp [PyResult.fsOf, lookup_eraseKey, hne]
    | dir m0 => rfl
    | symlink t => simp [PyResult.fsOf, lookup_eraseKey, hne]

theorem unlink_noLinks {fs : FS} {q : Path} (hfs : NoLinks fs) :
    NoLinks (PyResult.fsOf (unlink fs q)) := by
  unfold unlink
  cases hl : fs.lookup q with
  | none => exact hfs
  | some e =>
    cases e with
    | file c m0 => exact noLinks_eraseKey hfs
    | dir m0 => exact hfs
    | symlink t => exact noLinks_eraseKey hfs

theorem openRead_fsOf (fs : FS) (p : Path) :
    (openRead fs p).fsOf = fs := by
  unfold openRead
  split
  · split <;> rfl
  · rfl
  · rfl

theorem openReadWrite_fsOf (fs : FS) (p : Path) :
    (openReadWrite fs p).fsOf = fs := by
  unfold openReadWrite
  split
  · split <;> rfl
  · rfl
  · rfl

theorem writeFile_frame {fs : FS} {q : Path} {content : List Nat} {p : Path}
    (hfs : NoLinks fs) (hne : p ≠ q) :
    (PyResult.fsOf (writeFile fs q content)).lookup p = fs.lookup p := by
  unfold writeFile
  rw [show FS.fuelOf fs = fs.length + 1 from rfl, resolveFinal_noLinks hfs,
    resolveFinal_noLinks hfs]
  cases hl : fs.lookup q with
  | some e =>
    cases e with
    | file c m0 =>
      cases hw : canWrite m0 <;> simp [hw, PyResult.fsOf, lookup_setEntry, hne]
    | dir m0 => rfl
    | symlink t =>
      have := noLinks_lookup hfs hl
      simp [Entry.isLink] at this
  | none =>
    cases hl2 : fs.lookup (pyParent q) with
    | none => rfl
    | some e2 =>
      cases e2 with
      | file c m0 => rfl
      | dir m0 =>
        cases hw : canWrite m0 <;> simp [hw, PyResult.fsOf, lookup_setEntry, hne]
      | symlink t =>
        have := noLinks_lookup hfs hl2
        simp [Entry.isLink] at this

theorem writeFile_noLinks {fs : FS} {q : Path} {content : List Nat}
    (hfs : NoLinks fs) :
    NoLinks (PyResult.fsOf (writeFile fs q content)) := by
  unfold writeFile
  rw [show FS.fuelOf fs = fs.length + 1 from rfl, resolveFinal_noLinks hfs,
    resolveFinal_noLinks hfs]
  cases hl : fs.lookup q with
  | some e =>
    cases e with
    | file c m0 =>
      cases hw : canWrite m0
      · simpa [PyResult.fsOf, hw] using hfs
      · simpa [PyResult.fsOf, hw] using noLinks_setEntry hfs (by rfl)
    | dir m0 => exact hfs
    | symlink t =>
      have := noLinks_lookup hfs hl
      simp [Entry.isLink] at this
  | none =>
    cases hl2 : fs.lookup (pyParent q) with
    | none => exact hfs
    | some e2 =>
      cases e2 with
      | file c m0 => exact hfs
      | dir m0 =>
        cases hw : canWrite m0
        · simpa [PyResult.fsOf, hw] using hfs
        · simpa [PyResult.fsOf, hw] using noLinks_setEntry hfs (by rfl)
      | symlink t =>
        have := noLinks_lookup hfs hl2
        simp [Entry.isLink] at this

/-! # Claim theorems

Fixtures: a null environment for calls whose external tools are never
consulted. -/

/-! ## C8 — `extract_mbr_from_iso` on an existing output -/

/-- C8: calling `extract_mbr_from_iso` with an output path that
already exists fails with `FileExistsError` (`AlreadyExists`) and
returns the filesystem completely unchanged, so the existing file's
contents are exactly what they were before the call. -/
theorem C8_extract_mbr_output_exists (fs : FS) (out src : Path)
    (h : fs.pathExists out = true) :
    extract_mbr_from_iso fs out src = .error .fileExists fs := by
  unfold extract_mbr_from_iso
  simp [h]

/-- Witness for C8 at a concrete filesystem. -/
theorem C8_witness :
    fsC8.pathExists ["o", "mbr.bin"] = true ∧
    extract_mbr_from_iso fsC8 ["o", "mbr.bin"] ["d", "img.iso"] =
      .error .fileExists fsC8 :=
  ⟨by decide, C8_extract_mbr_output_exists fsC8 _ _ (by decide)⟩

/-! ## C6 — initrd append on a wrongly named archive -/

/-- C6: the initrd append operation on an existing archive whose file
name is not exactly `initrd.gz` fails with the name-check
`AssertionError` (`InvalidFormat`) and returns the filesystem
completely unchanged — no permission change, no decompression, no
deletion has happened. -/
theorem C6_append_wrong_name (env : ExtEnv) (fs : FS)
    (archive base rel : Path)
    (hfile : fs.isFile archive = true)
    (hname : pyName archive ≠ "initrd.gz") :
    append_file_contents_to_initrd_archive env fs archive base rel =
      .error (.assertionError (pyName archive)) fs := by
  unfold append_file_contents_to_initrd_archive
  have hb : (pyName archive == "initrd.gz") = false := by
    simp [hname]
  simp [hfile, hb]

/-- Witness for C6 at a concrete filesystem. -/
theorem C6_witness :
    fsC6.isFile ["t", "initrd.img"] = true ∧
    append_file_contents_to_initrd_archive envNull fsC6 ["t", "initrd.img"]
        ["base"] ["f"] =
      .error (.assertionError "initrd.img") fsC6 :=
  ⟨by decide,
   C6_append_wrong_name envNull fsC6 _ _ _ (by decide) (by decide)⟩

/-! ## C1 — `extract_mbr_from_iso` writes the 432-byte prefix -/

/-- C1 (amended): for a source image that exists with extension `.iso`
or `.img`, holds at least 432 bytes, and — as the implementation opens
it with mode `"r+b"` — is both readable and *writable*, and an output
path that does not exist and whose parent is a writable directory,
`extract_mbr_from_iso` creates the output file holding exactly the
first 432 bytes of the source, and that prefix has length exactly
432. -/
theorem C1_extract_mbr_writes_prefix (fs : FS) (out src : Path)
    (content : List Nat) (m : Nat)
    (hsrc : fs.lookup src = some (Entry.file content m))
    (hr : canRead m = true) (hw : canWrite m = true)
    (hlen : 432 ≤ content.length)
    (hsuf : pySuffix (pyName src) = ".iso" ∨ pySuffix (pyName src) = ".img")
    (hout : fs.pathExists out = false)
    (hpar : ∃ dm, fs.lookup (pyParent out) = some (Entry.dir dm) ∧
      canWrite dm = true) :
    extract_mbr_from_iso fs out src =
      .ok () (fs.setEntry out (Entry.file (content.take 432) 0o644)) ∧
    (content.take 432).length = 432 := by
  obtain ⟨dm, hpar, hdw⟩ := hpar
  have hres : FS.resolveFinal fs (FS.fuelOf fs) src = some (src, Entry.file content m) :=
    resolveFinal_of_nonlink hsrc (by rfl) _
  have hresOut : FS.resolveFinal fs (FS.fuelOf fs) out = none := by
    cases h : FS.resolveFinal fs (FS.fuelOf fs) out with
    | none => rfl
    | some x =>
      unfold FS.pathExists at hout
      rw [h] at hout
      simp at hout
  have hresPar : FS.resolveFinal fs (FS.fuelOf fs) (pyParent out) =
      some (pyParent out, Entry.dir dm) :=
    resolveFinal_of_nonlink hpar (by rfl) _
  have hfile : fs.isFile src = true := by
    unfold FS.isFile
    rw [hres]
  have hsuf' : (pySuffix (pyName src) == ".iso"
      || pySuffix (pyName src) == ".img") = true := by
    rcases hsuf with h | h <;> simp [h]
  have hOR : openReadWrite fs src = .ok content fs := by
    unfold openReadWrite
    rw [hres]
    simp [hr, hw]
  have hWF : writeFile fs out (content.take 432) =
      .ok () (fs.setEntry out (Entry.file (content.take 432) 0o644)) := by
    unfold writeFile
    rw [hresOut, hresPar]
    simp [hdw]
  constructor
  · unfold extract_mbr_from_iso
    simp [hout, hfile, hsuf', hOR, hWF]
  · rw [List.length_take]
    exact Nat.min_eq_left hlen

/-- Witness for C1 at a concrete filesystem. -/
theorem C1_witness :
    extract_mbr_from_iso fsC1w ["o", "mbr.bin"] ["d", "img.iso"] =
      .ok () (fsC1w.setEntry ["o", "mbr.bin"]
        (Entry.file ((List.replicate 440 7).take 432) 0o644)) ∧
    ((List.replicate 440 (7 : Nat)).take 432).length = 432 :=
  C1_extract_mbr_writes_prefix fsC1w ["o", "mbr.bin"] ["d", "img.iso"]
    (List.replicate 440 7) 0o644 (by decide) (by decide) (by decide)
    (by decide) (Or.inl (by decide)) (by decide)
    ⟨0o755, by decide, by decide⟩

/-- Counterexample to C1 as stated: a read-only source image of
exactly 432 bytes with extension `.iso`, an absent output path with an
existing writable parent — every condition of the claim — yet the call
fails with `PermissionError` (the source is opened with mode `"r+b"`,
which requires write access) and no output file is created. -/
theorem C1_counterexample :
    fsC1cx.isFile ["d", "img.iso"] = true ∧
    432 ≤ ((List.replicate 432 (7 : Nat)).length) ∧
    pySuffix (pyName ["d", "img.iso"]) = ".iso" ∧
    fsC1cx.pathExists ["o", "mbr.bin"] = false ∧
    extract_mbr_from_iso fsC1cx ["o", "mbr.bin"] ["d", "img.iso"] =
      .error .permissionError fsC1cx := by
  refine ⟨by decide, by decide, by decide, by decide, ?_⟩
  decide

/-! ## C4 — `repack_iso` volume-name validation -/

/-- C4 (amended): `repack_iso` — with its other preconditions
satisfied — fails on the first volume-name character matching the
regex `[^\w .-]`, naming exactly that character, and the filesystem
(in particular the output path) is unchanged.  Because Python's `\w`
is Unicode-aware, characters outside the spec class `[A-Za-z0-9 ._-]`
that are non-ASCII word characters (for example `é`) are *not*
rejected; the theorem restricts names to the codepoint range the
embedding models exactly. -/
theorem C4_repack_invalid_name (env : ExtEnv) (fs : FS)
    (out mbr tree : Path) (name : String) (c : Char)
    (hout : fs.pathExists out = false)
    (hmbr : fs.isFile mbr = true)
    (htree : fs.isDir tree = true)
    (_hrange : ∀ ch ∈ name.toList, ch.toNat < 0x180)
    (hfind : name.toList.find? (fun ch => !(repackAllowedChar ch)) = some c) :
    repack_iso env fs out mbr tree name =
      .error (.runtimeError (invalidCharMsg c)) fs ∧
    repackAllowedChar c = false := by
  constructor
  · unfold repack_iso
    rw [hfind]
    simp [hout, hmbr, htree]
  · have := List.find?_some hfind
    simpa using this

/-- Witness for C4 at a concrete filesystem: the name `"a/b"` is
rejected naming `/`. -/
theorem C4_witness :
    repack_iso envNull fsC4w ["out.iso"] ["mbr.bin"] ["tree"] "a/b" =
      .error (.runtimeError (invalidCharMsg '/')) fsC4w ∧
    repackAllowedChar '/' = false :=
  C4_repack_invalid_name envNull fsC4w ["out.iso"] ["mbr.bin"] ["tree"]
    "a/b" '/' (by decide) (by decide) (by decide) (by decide) (by decide)

/-- Counterexample to C4 as stated: the volume name `"é"` consists of
a character outside the class `[A-Za-z0-9 ._-]`, yet `repack_iso` does
not fail with the invalid-character error — it runs the packing tool
and creates the output file — because Python's Unicode-aware `\w`
accepts `é`. -/
theorem C4_counterexample :
    ("é".toList.all specAllowedChar) = false ∧
    repack_iso envC4 fsC4 ["out.iso"] ["mbr.bin"] ["tree"] "é" =
      .ok () (fsC4.setEntry ["out.iso"] (Entry.file [5] 0o644)) := by
  refine ⟨by decide, ?_⟩
  decide

/-! ## C3 — the cpio exit status is never checked -/

/-- C3 is a code bug: with the external cpio utility exiting with the
non-zero status 1, the append operation nevertheless completes
normally (no `ProcessFailure` is raised) and repacks the archive from
cpio's output, because the exit status of the `Popen` invocation is
never inspected — the `except CalledProcessError` handler around it is
dead code. -/
theorem C3_cpio_failure_not_raised :
    (envC3.cpioAppend [3, 3] none).1 ≠ 0 ∧
    (append_file_contents_to_initrd_archive envC3 fsC3 ["t", "initrd.gz"]
      ["base"] ["f"]).isOk = true ∧
    (append_file_contents_to_initrd_archive envC3 fsC3 ["t", "initrd.gz"]
      ["base"] ["f"]).fsOf.contentAt ["t", "initrd.gz"] = some [9] := by
  refine ⟨by decide, ?_, ?_⟩ <;> decide

/-! ## C2 — orchestrator cleanup of temporary directories -/

theorem mem_removeTree {fs : FS} {p : Path} {pe : Path × Entry}
    (h : pe ∈ removeTree fs p) : pe ∈ fs ∧ p.isPrefixOf pe.1 = false := by
  unfold removeTree at h
  have := List.mem_filter.mp h
  exact ⟨this.1, by simpa using this.2⟩

/-- After the three cleanup calls, no entry lies at or below any of
the three temporary directories. -/
theorem removeTree3_clean (fs : FS) :
    ((removeTree (removeTree (removeTree fs tmpFileDir) tmpMbrDir)
        tmpExtractedDir).all
      (fun pe => !(tmpExtractedDir.isPrefixOf pe.1)
        && !(tmpMbrDir.isPrefixOf pe.1)
        && !(tmpFileDir.isPrefixOf pe.1))) = true := by
  rw [List.all_eq_true]
  intro pe hpe
  obtain ⟨hpe, h1⟩ := mem_removeTree hpe
  obtain ⟨hpe, h2⟩ := mem_removeTree hpe
  obtain ⟨hpe, h3⟩ := mem_removeTree hpe
  simp [h1, h2, h3]

theorem inject_ok_clean {env : ExtEnv} {fs : FS} {out inp : Path}
    {nm : String} {v : Unit} {fs' : FS}
    (h : inject_files_into_iso env fs out inp nm = .ok v fs') :
    (fs'.all (fun pe => !(tmpExtractedDir.isPrefixOf pe.1)
      && !(tmpMbrDir.isPrefixOf pe.1)
      && !(tmpFileDir.isPrefixOf pe.1))) = true := by
  simp only [inject_files_into_iso] at h
  repeat' split at h
  all_goals (try (exact PyResult.noConfusion h))
  all_goals
    obtain ⟨h1, h2⟩ := PyResult.ok.inj h
  all_goals subst h2
  all_goals exact removeTree3_clean _

/-- C2 (amended): when `inject_files_into_iso` completes successfully,
every temporary resource (the extracted tree under `tmpExtractedDir`,
the MBR directory `tmpMbrDir`, and the staging directory `tmpFileDir`,
including the directories themselves) has been released before the
orchestrator returns.  When a stage raises, the exception propagates
before the cleanup calls at the end of the function body are reached
and the resources are *not* released (see `C2_counterexample`). -/
theorem C2_cleanup_on_success (env : ExtEnv) (fs : FS) (out inp : Path)
    (nm : String)
    (h : (inject_files_into_iso env fs out inp nm).isOk = true) :
    ((inject_files_into_iso env fs out inp nm).fsOf.all
      (fun pe => !(tmpExtractedDir.isPrefixOf pe.1)
        && !(tmpMbrDir.isPrefixOf pe.1)
        && !(tmpFileDir.isPrefixOf pe.1))) = true := by
  cases hres : inject_files_into_iso env fs out inp nm with
  | error e fs' => rw [hres] at h; simp [PyResult.isOk] at h
  | ok v fs' =>
    exact inject_ok_clean hres

/-- Witness for C2 on a complete successful pipeline run. -/
theorem C2_witness :
    (inject_files_into_iso envC2w fsC2w ["out", "new.iso"]
      ["home", "debian.iso"] "Debian").isOk = true ∧
    ((inject_files_into_iso envC2w fsC2w ["out", "new.iso"]
      ["home", "debian.iso"] "Debian").fsOf.all
      (fun pe => !(tmpExtractedDir.isPrefixOf pe.1)
        && !(tmpMbrDir.isPrefixOf pe.1)
        && !(tmpFileDir.isPrefixOf pe.1))) = true :=
  ⟨by decide, C2_cleanup_on_success envC2w fsC2w _ _ _ (by decide)⟩

/-- Counterexample to C2 as stated: when the MBR-extraction stage
raises (here: the input is not named `*.iso`/`*.img`), the
orchestrator propagates the error without reaching its cleanup calls,
and both temporary directories created so far — the extracted-tree
directory and the MBR directory — are still present in the final
filesystem. -/
theorem C2_counterexample :
    (inject_files_into_iso envC2cx fsC2cx ["out", "new.iso"]
      ["home", "image.raw"] "Debian").isOk = false ∧
    (inject_files_into_iso envC2cx fsC2cx ["out", "new.iso"]
      ["home", "image.raw"] "Debian").fsOf.lookup tmpExtractedDir =
      some (Entry.dir 0o700) ∧
    (inject_files_into_iso envC2cx fsC2cx ["out", "new.iso"]
      ["home", "image.raw"] "Debian").fsOf.lookup tmpMbrDir =
      some (Entry.dir 0o700) := by
  refine ⟨?_, ?_, ?_⟩ <;> decide

/-! ## Digest-shape lemmas for MD5 -/

theorem hexPair_length (b : Nat) : (MD5.hexPair b).length = 2 := rfl

theorem flatMap_hexPair_length :
    ∀ l : List Nat, (l.flatMap MD5.hexPair).length = 2 * l.length := by
  intro l
  induction l with
  | nil => rfl
  | cons b rest ih =>
    simp only [List.flatMap_cons, List.length_append, hexPair_length, ih,
      List.length_cons]
    ring

theorem digest_length (msg : List Nat) : (MD5.digest msg).length = 16 := by
  unfold MD5.digest
  rcases (MD5.chunks (MD5.padMessage msg).length (MD5.padMessage msg)).foldl
      MD5.processChunk (0x67452301, 0xefcdab89, 0x98badcfe, 0x10325476) with
    ⟨a, b, c, d⟩
  simp [MD5.wordBytesLE]

/-- `hexdigest` always has exactly 32 characters. -/
theorem hexdigest_length (msg : List Nat) : (MD5.hexdigest msg).length = 32 := by
  show (String.mk (MD5.hexdigestChars msg)).length = 32
  have h1 : (MD5.hexdigestChars msg).length = 32 := by
    unfold MD5.hexdigestChars
    rw [flatMap_hexPair_length, digest_length]
  simpa [String.length] using h1

theorem hexChar_mem (n : Nat) : MD5.hexChar n ∈ MD5.hexChars := by
  unfold MD5.hexChar
  by_cases h : n < MD5.hexChars.length
  · rw [List.getD_eq_getElem _ _ h]
    exact List.getElem_mem h
  · rw [List.getD_eq_default _ _ (Nat.le_of_not_lt h)]
    decide

/-- Every character of `hexdigest` is a lowercase hexadecimal digit. -/
theorem hexdigest_chars (msg : List Nat) :
    ∀ ch ∈ (MD5.hexdigest msg).toList, ch ∈ MD5.hexChars := by
  intro ch hch
  have : ch ∈ MD5.hexdigestChars msg := hch
  unfold MD5.hexdigestChars at this
  rcases List.mem_flatMap.mp this with ⟨b, _, hb⟩
  unfold MD5.hexPair at hb
  rcases List.mem_cons.mp hb with rfl | hb
  · exact hexChar_mem _
  · rcases List.mem_singleton.mp hb with rfl
    exact hexChar_mem _

/-! ## Walk lemmas for `findAllFilesUnderAux` -/

theorem walk_foldl_mem (fs : FS) (fuel : Nat) :
    ∀ (l : List Path) (acc : List Path) (x : Path),
      x ∈ l.foldl (fun acc sub =>
        if fs.isFile sub then acc ++ [fs.pyResolve sub]
        else if !(fs.isSymlink sub) && fs.isDir sub then
          acc ++ findAllFilesUnderAux fs fuel sub
        else acc) acc ↔
      (x ∈ acc ∨ ∃ sub ∈ l, x ∈ (if fs.isFile sub then [fs.pyResolve sub]
        else if !(fs.isSymlink sub) && fs.isDir sub then
          findAllFilesUnderAux fs fuel sub
        else [])) := by
  intro l
  induction l with
  | nil => simp
  | cons s rest ih =>
    intro acc x
    simp only [List.foldl_cons]
    by_cases h1 : fs.isFile s
    · rw [if_pos h1, ih]
      simp only [List.mem_append, List.mem_cons]
      constructor
      · rintro ((h | h) | ⟨sub, hsub, hx⟩)
        · exact Or.inl h
        · exact Or.inr ⟨s, Or.inl rfl, by simpa [h1] using h⟩
        · exact Or.inr ⟨sub, Or.inr hsub, hx⟩
      · rintro (h | ⟨sub, (rfl | hsub), hx⟩)
        · exact Or.inl (Or.inl h)
        · exact Or.inl (Or.inr (by simpa [h1] using hx))
        · exact Or.inr ⟨sub, hsub, hx⟩
    · rw [if_neg h1]
      by_cases h2 : (!(fs.isSymlink s) && fs.isDir s) = true
      · rw [if_pos h2, ih]
        simp only [List.mem_append, List.mem_cons]
        constructor
        · rintro ((h | h) | ⟨sub, hsub, hx⟩)
          · exact Or.inl h
          · exact Or.inr ⟨s, Or.inl rfl, by simpa [h1, h2] using h⟩
          · exact Or.inr ⟨sub, Or.inr hsub, hx⟩
        · rintro (h | ⟨sub, (rfl | hsub), hx⟩)
          · exact Or.inl (Or.inl h)
          · exact Or.inl (Or.inr (by simpa [h1, h2] using hx))
          · exact Or.inr ⟨sub, hsub, hx⟩
      · rw [if_neg h2, ih]
        simp only [List.mem_cons]
        constructor
        · rintro (h | ⟨sub, hsub, hx⟩)
          · exact Or.inl h
          · exact Or.inr ⟨sub, Or.inr hsub, hx⟩
        · rintro (h | ⟨sub, (rfl | hsub), hx⟩)
          · exact Or.inl h
          · simp [h1, h2] at hx
          · exact Or.inr ⟨sub, hsub, hx⟩

/-- Every path collected by the walk is stored in the filesystem as a
regular file (the walk emits resolved paths of `is_file` entries). -/
theorem mem_findAllFilesUnderAux {fs : FS} :
    ∀ {fuel : Nat} {p q : Path}, q ∈ findAllFilesUnderAux fs fuel p →
      ∃ c m, fs.lookup q = some (Entry.file c m) := by
  intro fuel
  induction fuel with
  | zero => intro p q h; simp [findAllFilesUnderAux] at h
  | succ fuel ih =>
    intro p q h
    unfold findAllFilesUnderAux at h
    rw [walk_foldl_mem] at h
    rcases h with h | ⟨sub, _, hq⟩
    · simp at h
    · by_cases h1 : fs.isFile sub
      · rw [if_pos h1] at hq
        rcases List.mem_singleton.mp hq with rfl
        unfold FS.isFile at h1
        cases hres : FS.resolveFinal fs (FS.fuelOf fs) sub with
        | none => rw [hres] at h1; simp at h1
        | some qe =>
          rw [hres] at h1
          rcases qe with ⟨q1, e1⟩
          cases e1 with
          | file c m =>
            refine ⟨c, m, ?_⟩
            have : fs.pyResolve sub = q1 := by
              unfold FS.pyResolve
              rw [hres]
            rw [this]
            exact (resolveFinal_lookup hres).1
          | dir m => simp at h1
          | symlink t => simp at h1
      · rw [if_neg h1] at hq
        by_cases h2 : (!(fs.isSymlink sub) && fs.isDir sub) = true
        · rw [if_pos h2] at hq
          exact ih hq
        · rw [if_neg h2] at hq
          simp at hq

/-! ## The manifest-writing loop -/

theorem md5sumLoop_ok {fs : FS} {root : Path} :
    ∀ {qs : List Path} {acc out : String},
      (∀ q ∈ qs, ∃ c m, fs.lookup q = some (Entry.file c m)) →
      md5sumLoop fs root qs acc = (out, none) →
      out = acc ++ concatStrs (qs.map (fun q =>
        MD5.hexdigest ((fs.contentAt q).getD []) ++ "  " ++
        String.intercalate "/" (q.drop root.length) ++ "\n")) ∧
      ∀ q ∈ qs, root.isPrefixOf q = true ∧
        ∃ c m, fs.lookup q = some (Entry.file c m) ∧ canRead m = true := by
  intro qs
  induction qs with
  | nil =>
    intro acc out hqs h
    unfold md5sumLoop at h
    obtain ⟨h1, _⟩ := Prod.mk.inj h
    subst h1
    constructor
    · simp [concatStrs]
    · intro q hq; simp at hq
  | cons q rest ih =>
    intro acc out hqs h
    obtain ⟨c, m, hq⟩ := hqs q (List.mem_cons_self _ _)
    have hres := resolveFinal_of_nonlink hq (by rfl) fs.length
    have hOR : openRead fs q =
        if canRead m then .ok c fs else .error .permissionError fs := by
      unfold openRead
      rw [show FS.fuelOf fs = fs.length + 1 from rfl, hres]
    cases hr : canRead m with
    | false =>
      exfalso
      unfold md5sumLoop at h
      rw [hOR, if_neg (by simp [hr])] at h
      obtain ⟨_, h2⟩ := Prod.mk.inj h
      exact Option.noConfusion h2
    | true =>
      cases hpre : root.isPrefixOf q with
      | false =>
        exfalso
        have hrel : relTo q root = none := by
          unfold relTo
          rw [hpre]
          rfl
        unfold md5sumLoop at h
        rw [hOR, if_pos (by simp [hr])] at h
        simp only [hrel] at h
        obtain ⟨_, h2⟩ := Prod.mk.inj h
        exact Option.noConfusion h2
      | true =>
        have hrel : relTo q root = some (q.drop root.length) := by
          unfold relTo
          rw [hpre]
          rfl
        have hunfold : md5sumLoop fs root (q :: rest) acc =
            (match openRead fs q with
              | PyResult.error e _ => (acc, some e)
              | PyResult.ok c2 _ =>
                match relTo q root with
                | none => (acc, some PyError.valueError)
                | some r =>
                  md5sumLoop fs root rest (acc ++ MD5.hexdigest c2 ++ "  " ++
                    String.intercalate "/" r ++ "\n")) := rfl
        have hstep : md5sumLoop fs root (q :: rest) acc =
            md5sumLoop fs root rest (acc ++ MD5.hexdigest c ++ "  " ++
              String.intercalate "/" (q.drop root.length) ++ "\n") := by
          rw [hunfold, hOR, if_pos (by simp [hr]), hrel]
        rw [hstep] at h
        obtain ⟨ho, hrest⟩ := ih (fun x hx => hqs x (List.mem_cons_of_mem _ hx)) h
        have hc : (fs.contentAt q).getD [] = c := by
          simp [FS.contentAt, hq]
        constructor
        · rw [ho]
          simp only [List.map_cons, concatStrs, hc]
          simp [String.append_assoc]
        · intro x hx
          rcases List.mem_cons.mp hx with rfl | hx
          · exact ⟨hpre, c, m, hq, hr⟩
          · exact hrest x hx

/-! ## Deterministic evaluation lemmas for the steps of
`regenerate_iso_md5sums_file` -/

theorem resolveFinal_none_of_lookup_none {fs : FS} {p : Path}
    (h : fs.lookup p = none) (n : Nat) :
    FS.resolveFinal fs (n + 1) p = none := by
  unfold FS.resolveFinal
  rw [h]

theorem chmod_file {fs : FS} {q : Path} {c : List Nat} {m : Nat}
    (hq : fs.lookup q = some (Entry.file c m)) (mm : Nat) :
    chmod fs q mm = .ok () (fs.setEntry q (Entry.file c mm)) := by
  unfold chmod
  rw [show FS.fuelOf fs = fs.length + 1 from rfl,
    resolveFinal_of_nonlink hq (by rfl)]

theorem chmod_dir {fs : FS} {q : Path} {m : Nat}
    (hq : fs.lookup q = some (Entry.dir m)) (mm : Nat) :
    chmod fs q mm = .ok () (fs.setEntry q (Entry.dir mm)) := by
  unfold chmod
  rw [show FS.fuelOf fs = fs.length + 1 from rfl,
    resolveFinal_of_nonlink hq (by rfl)]

/-- `chmod` never changes the kind of any entry: a path holding a
directory still holds a directory afterwards. -/
theorem chmod_dir_preserved (q : Path) (mm : Nat) {fs : FS} {p : Path}
    {mdir : Nat} (h : fs.lookup p = some (Entry.dir mdir)) :
    ∃ m2, (PyResult.fsOf (chmod fs q mm)).lookup p = some (Entry.dir m2) := by
  unfold chmod
  cases hres : FS.resolveFinal fs (FS.fuelOf fs) q with
  | none => exact ⟨mdir, h⟩
  | some qe =>
    rcases qe with ⟨q1, e1⟩
    have hlk := (resolveFinal_lookup hres).1
    cases e1 with
    | file c mf =>
      have hne : p ≠ q1 := by
        rintro rfl
        rw [h] at hlk
        exact Entry.noConfusion (Option.some.inj hlk)
      exact ⟨mdir, by simp [PyResult.fsOf, lookup_setEntry, hne, h]⟩
    | dir md =>
      by_cases hpq : p = q1
      · subst hpq
        exact ⟨mm, by simp [PyResult.fsOf, lookup_setEntry]⟩
      · exact ⟨mdir, by simp [PyResult.fsOf, lookup_setEntry, hpq, h]⟩
    | symlink t =>
      have := (resolveFinal_lookup hres).2
      simp [Entry.isLink] at this

theorem unlink_ok {fs : FS} {q : Path} {v : Unit} {fs' : FS}
    (h : unlink fs q = .ok v fs') : fs' = fs.eraseKey q := by
  unfold unlink at h
  cases hl : fs.lookup q with
  | none => rw [hl] at h; exact PyResult.noConfusion h
  | some e =>
    rw [hl] at h
    cases e with
    | dir m => exact PyResult.noConfusion h
    | file c m => exact (PyResult.ok.inj h).2.symm
    | symlink t => exact (PyResult.ok.inj h).2.symm

theorem find_all_ok {fs : FS} {root : Path} {mdir : Nat}
    (hd : fs.lookup root = some (Entry.dir mdir)) {subs : List Path} {fs' : FS}
    (h : find_all_files_under fs root = .ok subs fs') :
    fs' = fs ∧ subs = findAllFilesUnderAux fs fs.walkFuel root := by
  unfold find_all_files_under at h
  rw [pyResolve_of_nonlink hd (by rfl)] at h
  have hdir : fs.isDir root = true := by
    unfold FS.isDir
    rw [show FS.fuelOf fs = fs.length + 1 from rfl,
      resolveFinal_of_nonlink hd (by rfl)]
  simp only [hdir, Bool.not_true, Bool.false_eq_true, if_false] at h
  exact ⟨(PyResult.ok.inj h).2.symm, (PyResult.ok.inj h).1.symm⟩

theorem writeFile_create {fs : FS} {q : Path} {content : List Nat} {dm : Nat}
    (hnone : fs.lookup q = none)
    (hpar : fs.lookup (pyParent q) = some (Entry.dir dm))
    (hw : canWrite dm = true) :
    writeFile fs q content = .ok () (fs.setEntry q (Entry.file content 0o644)) := by
  unfold writeFile
  rw [show FS.fuelOf fs = fs.length + 1 from rfl,
    resolveFinal_none_of_lookup_none hnone,
    resolveFinal_of_nonlink hpar (by rfl)]
  simp [hw]

theorem writeFile_overwrite {fs : FS} {q : Path} {content c : List Nat} {m : Nat}
    (hq : fs.lookup q = some (Entry.file c m)) (hw : canWrite m = true) :
    writeFile fs q content = .ok () (fs.setEntry q (Entry.file content m)) := by
  unfold writeFile
  rw [show FS.fuelOf fs = fs.length + 1 from rfl,
    resolveFinal_of_nonlink hq (by rfl)]
  simp [hw]

/-- Master description of a successful `regenerate_iso_md5sums_file`
run: there is a state `fs2` (after the permission widening and the
deletion of the old manifest) in which the old manifest is gone and
the root is a writable directory; the returned paths are exactly the
walk of `fs2`; the hashing loop succeeded producing the text `acc`;
and the final state is `fs2` with the new manifest written (content
`acc`, mode 0444) and the root set back to mode 0555. -/
theorem regenerate_ok_destruct {fs : FS} {root : Path} {m0 : Nat}
    {subs : List Path} {fs' : FS}
    (hroot : fs.lookup root = some (Entry.dir m0))
    (h : regenerate_iso_md5sums_file fs root = .ok subs fs') :
    ∃ (fs2 : FS) (acc : String),
      fs2.lookup (root ++ ["md5sum.txt"]) = none ∧
      fs2.lookup root = some (Entry.dir 0o755) ∧
      subs = findAllFilesUnderAux fs2 fs2.walkFuel root ∧
      md5sumLoop (fs2.setEntry (root ++ ["md5sum.txt"]) (Entry.file [] 0o644))
        root subs "" = (acc, none) ∧
      fs' = ((((fs2.setEntry (root ++ ["md5sum.txt"]) (Entry.file [] 0o644)).setEntry
          (root ++ ["md5sum.txt"]) (Entry.file (encodeStr acc) 0o644)).setEntry
          (root ++ ["md5sum.txt"]) (Entry.file (encodeStr acc) 0o444)).setEntry
          root (Entry.dir 0o555)) := by
  have hne_root : root ≠ root ++ ["md5sum.txt"] := by simp
  unfold regenerate_iso_md5sums_file at h
  rw [pyResolve_of_nonlink hroot (by rfl)] at h
  have hdir : fs.isDir root = true := by
    unfold FS.isDir
    rw [show FS.fuelOf fs = fs.length + 1 from rfl,
      resolveFinal_of_nonlink hroot (by rfl)]
  simp only [hdir, Bool.not_true, Bool.false_eq_true, if_false] at h
  split at h
  · exact PyResult.noConfusion h
  rename_i v1 fsA heq1
  obtain ⟨mX, hAroot⟩ := chmod_dir_preserved (root ++ ["md5sum.txt"]) 0o644 hroot
  rw [heq1] at hAroot
  have hAroot2 : fsA.lookup root = some (Entry.dir mX) := hAroot
  split at h
  · exact PyResult.noConfusion h
  rename_i v2 fsB heq2
  rw [chmod_dir hAroot2 0o755] at heq2
  obtain ⟨_, hfsB⟩ := PyResult.ok.inj heq2
  subst hfsB
  split at h
  · exact PyResult.noConfusion h
  rename_i v3 fsC heq3
  have hfsC := unlink_ok heq3
  subst hfsC
  have hC_md5 : FS.lookup
      ((fsA.setEntry root (Entry.dir 0o755)).eraseKey (root ++ ["md5sum.txt"]))
      (root ++ ["md5sum.txt"]) = none := by
    rw [lookup_eraseKey]
    simp
  have hC_root : FS.lookup
      ((fsA.setEntry root (Entry.dir 0o755)).eraseKey (root ++ ["md5sum.txt"]))
      root = some (Entry.dir 0o755) := by
    rw [lookup_eraseKey, if_neg hne_root, lookup_setEntry]
    simp
  split at h
  · exact PyResult.noConfusion h
  rename_i subs1 fsD heq4
  obtain ⟨hfsD, hsubs1⟩ := find_all_ok hC_root heq4
  subst hfsD
  split at h
  · exact PyResult.noConfusion h
  rename_i v5 fsE heq5
  have hparent : pyParent (root ++ ["md5sum.txt"]) = root := by
    simp [pyParent]
  have hwf1 : writeFile
      ((fsA.setEntry root (Entry.dir 0o755)).eraseKey (root ++ ["md5sum.txt"]))
      (root ++ ["md5sum.txt"]) [] =
      .ok () (((fsA.setEntry root (Entry.dir 0o755)).eraseKey
        (root ++ ["md5sum.txt"])).setEntry (root ++ ["md5sum.txt"])
        (Entry.file [] 0o644)) := by
    have hparlook : FS.lookup
        ((fsA.setEntry root (Entry.dir 0o755)).eraseKey (root ++ ["md5sum.txt"]))
        (pyParent (root ++ ["md5sum.txt"])) = some (Entry.dir 0o755) := by
      rw [hparent]
      exact hC_root
    exact writeFile_create hC_md5 hparlook (by decide)
  rw [hwf1] at heq5
  obtain ⟨_, hfsE⟩ := PyResult.ok.inj heq5
  subst hfsE
  split at h
  · exact PyResult.noConfusion h
  rename_i v6 fsF heq6
  have hE_md5 : FS.lookup
      (((fsA.setEntry root (Entry.dir 0o755)).eraseKey
        (root ++ ["md5sum.txt"])).setEntry (root ++ ["md5sum.txt"])
        (Entry.file [] 0o644)) (root ++ ["md5sum.txt"]) =
      some (Entry.file [] 0o644) := by
    rw [lookup_setEntry]
    simp
  rw [writeFile_overwrite hE_md5 (by decide : canWrite 0o644 = true)] at heq6
  obtain ⟨_, hfsF⟩ := PyResult.ok.inj heq6
  subst hfsF
  split at h
  · exact PyResult.noConfusion h
  rename_i heq7
  split at h
  · exact PyResult.noConfusion h
  rename_i v8 fsG heq8
  have hF_md5 : FS.lookup
      ((((fsA.setEntry root (Entry.dir 0o755)).eraseKey
        (root ++ ["md5sum.txt"])).setEntry (root ++ ["md5sum.txt"])
        (Entry.file [] 0o644)).setEntry (root ++ ["md5sum.txt"])
        (Entry.file (encodeStr (md5sumLoop
          (((fsA.setEntry root (Entry.dir 0o755)).eraseKey
            (root ++ ["md5sum.txt"])).setEntry (root ++ ["md5sum.txt"])
            (Entry.file [] 0o644)) root subs1 "").1) 0o644))
      (root ++ ["md5sum.txt"]) =
      some (Entry.file (encodeStr (md5sumLoop
        (((fsA.setEntry root (Entry.dir 0o755)).eraseKey
          (root ++ ["md5sum.txt"])).setEntry (root ++ ["md5sum.txt"])
          (Entry.file [] 0o644)) root subs1 "").1) 0o644) := by
    rw [lookup_setEntry]
    simp
  rw [chmod_file hF_md5 0o444] at heq8
  obtain ⟨_, hfsG⟩ := PyResult.ok.inj heq8
  subst hfsG
  split at h
  · exact PyResult.noConfusion h
  rename_i v9 fsH heq9
  have hG_root : FS.lookup
      ((((((fsA.setEntry root (Entry.dir 0o755)).eraseKey
        (root ++ ["md5sum.txt"])).setEntry (root ++ ["md5sum.txt"])
        (Entry.file [] 0o644)).setEntry (root ++ ["md5sum.txt"])
        (Entry.file (encodeStr (md5sumLoop
          (((fsA.setEntry root (Entry.dir 0o755)).eraseKey
            (root ++ ["md5sum.txt"])).setEntry (root ++ ["md5sum.txt"])
            (Entry.file [] 0o644)) root subs1 "").1) 0o644)).setEntry
        (root ++ ["md5sum.txt"])
        (Entry.file (encodeStr (md5sumLoop
          (((fsA.setEntry root (Entry.dir 0o755)).eraseKey
            (root ++ ["md5sum.txt"])).setEntry (root ++ ["md5sum.txt"])
            (Entry.file [] 0o644)) root subs1 "").1) 0o444)))
      root = some (Entry.dir 0o755) := by
    rw [lookup_setEntry, if_neg hne_root, lookup_setEntry, if_neg hne_root,
      lookup_setEntry, if_neg hne_root]
    exact hC_root
  rw [chmod_dir hG_root 0o555] at heq9
  obtain ⟨_, hfsH⟩ := PyResult.ok.inj heq9
  subst hfsH
  obtain ⟨hsubs, hfs'⟩ := PyResult.ok.inj h
  refine ⟨(fsA.setEntry root (Entry.dir 0o755)).eraseKey (root ++ ["md5sum.txt"]),
    (md5sumLoop (((fsA.setEntry root (Entry.dir 0o755)).eraseKey
      (root ++ ["md5sum.txt"])).setEntry (root ++ ["md5sum.txt"])
      (Entry.file [] 0o644)) root subs1 "").1, hC_md5, hC_root, ?_, ?_, ?_⟩
  · rw [← hsubs]
    exact hsubs1
  · rw [← hsubs, ← heq7]
  · exact hfs'.symm

/-! ## C7 — permission restoration by `regenerate_iso_md5sums_file` -/

/-- C7 (amended): a successful run of the manifest regeneration
restores the manifest file to mode 0444 and the root directory to mode
0555 before returning.  When computing a file digest fails partway
through, the error propagates before the restoring `chmod` calls are
reached and the permissions are left widened (see
`C7_counterexample`). -/
theorem C7_regenerate_restores_permissions (fs : FS) (root : Path)
    (m0 : Nat) (subs : List Path) (fs' : FS)
    (hroot : fs.lookup root = some (Entry.dir m0))
    (h : regenerate_iso_md5sums_file fs root = .ok subs fs') :
    fs'.modeAt (root ++ ["md5sum.txt"]) = some 0o444 ∧
    fs'.modeAt root = some 0o555 := by
  obtain ⟨fs2, acc, _, _, _, _, hfs'⟩ := regenerate_ok_destruct hroot h
  have hne : root ≠ root ++ ["md5sum.txt"] := by simp
  have hne2 : root ++ ["md5sum.txt"] ≠ root := fun hh => hne hh.symm
  subst hfs'
  constructor
  · unfold FS.modeAt
    rw [lookup_setEntry, if_neg hne2, lookup_setEntry]
    simp
  · unfold FS.modeAt
    rw [lookup_setEntry]
    simp

/-- Witness for C7 on a concrete successful run. -/
theorem C7_witness :
    regenerate_iso_md5sums_file fsC7w ["r"] = .ok [["r", "b.txt"]] fsC7wFinal ∧
    fsC7wFinal.modeAt ["r", "md5sum.txt"] = some 0o444 ∧
    fsC7wFinal.modeAt ["r"] = some 0o555 :=
  ⟨by decide,
   (C7_regenerate_restores_permissions fsC7w ["r"] 0o755 [["r", "b.txt"]]
     fsC7wFinal (by decide) (by decide)).1,
   (C7_regenerate_restores_permissions fsC7w ["r"] 0o755 [["r", "b.txt"]]
     fsC7wFinal (by decide) (by decide)).2⟩

/-- Counterexample to C7 as stated: the precondition check (the root
is a directory) passes, a digest computation fails partway through
(`PermissionError` on the unreadable file), and the operation returns
with the root directory left at the widened mode 0755 and the
half-written manifest left at mode 0644 — not 0555/0444. -/
theorem C7_counterexample :
    regenerate_iso_md5sums_file fsC7cx ["r"] = .error .permissionError
      [(["r"], Entry.dir 0o755),
       (["r", "secret"], Entry.file [1] 0o000),
       (["r", "md5sum.txt"], Entry.file [] 0o644)] ∧
    (regenerate_iso_md5sums_file fsC7cx ["r"]).fsOf.modeAt ["r"] = some 0o755 ∧
    (regenerate_iso_md5sums_file fsC7cx ["r"]).fsOf.modeAt ["r", "md5sum.txt"] =
      some 0o644 := by
  refine ⟨?_, ?_, ?_⟩ <;> decide

/-! ## C10 — the manifest never lists `md5sum.txt` itself -/

/-- C10: on every successful manifest regeneration, the list of hashed
paths (whose rendering is exactly the manifest text, see
`C5_regenerate_manifest`) contains no entry for the manifest file
itself: the old `md5sum.txt` is deleted before the enumeration and the
new one is created only after the enumeration, so it is never in its
own digest set. -/
theorem C10_manifest_excludes_itself (fs : FS) (root : Path) (m0 : Nat)
    (hroot : fs.lookup root = some (Entry.dir m0))
    (hok : (regenerate_iso_md5sums_file fs root).isOk = true) :
    (((regenerate_iso_md5sums_file fs root).valD []).all
      (fun q => !(q == root ++ ["md5sum.txt"]))) = true := by
  cases hres : regenerate_iso_md5sums_file fs root with
  | error e f => rw [hres] at hok; simp [PyResult.isOk] at hok
  | ok subs fs' =>
    obtain ⟨fs2, acc, hnone, _, hsubs, _, _⟩ := regenerate_ok_destruct hroot hres
    show subs.all _ = true
    rw [List.all_eq_true]
    intro q hq
    obtain ⟨c, m, hlk⟩ := mem_findAllFilesUnderAux (hsubs ▸ hq)
    have hne : q ≠ root ++ ["md5sum.txt"] := by
      rintro rfl
      rw [hnone] at hlk
      exact Option.noConfusion hlk
    simp [hne]

/-- Witness for C10 on a concrete successful run. -/
theorem C10_witness :
    (regenerate_iso_md5sums_file fsC10w ["r"]).isOk = true ∧
    (((regenerate_iso_md5sums_file fsC10w ["r"]).valD []).all
      (fun q => !(q == ["r"] ++ ["md5sum.txt"]))) = true :=
  ⟨by decide,
   C10_manifest_excludes_itself fsC10w ["r"] 0o755 (by decide) (by decide)⟩

/-! ## C5 — content of the regenerated manifest -/

/-- C5 (amended): on every successful run of the manifest
regeneration (a root directory), the stored manifest consists of
exactly one line per path collected by the walk, in walk order, each
line being the 32-character lowercase-hex MD5 digest of that file's
content *as stored in the final state* (so re-hashing any listed file
matches its manifest entry), two spaces, the path relative to the
root, and a newline.  The walk collects regular files — and, contrary
to the claim, also direct symbolic links to files, under their
resolved target path, because Python's `is_file` follows links (see
`C5_counterexample`) — and skips symlinked directories.  Every listed
path is an existing regular file below the root and is never the
manifest itself. -/
theorem C5_regenerate_manifest (fs : FS) (root : Path) (m0 : Nat)
    (subs : List Path) (fs' : FS)
    (hroot : fs.lookup root = some (Entry.dir m0))
    (h : regenerate_iso_md5sums_file fs root = .ok subs fs') :
    fs'.lookup (root ++ ["md5sum.txt"]) =
      some (Entry.file (encodeStr (concatStrs (subs.map (fun q =>
        MD5.hexdigest ((fs'.contentAt q).getD []) ++ "  " ++
        String.intercalate "/" (q.drop root.length) ++ "\n")))) 0o444) ∧
    (∀ q ∈ subs, ∃ c mq, fs'.lookup q = some (Entry.file c mq)) ∧
    (∀ q ∈ subs, root.isPrefixOf q = true ∧ q ≠ root ++ ["md5sum.txt"]) ∧
    (∀ q ∈ subs, (MD5.hexdigest ((fs'.contentAt q).getD [])).length = 32 ∧
      ∀ ch ∈ (MD5.hexdigest ((fs'.contentAt q).getD [])).toList,
        ch ∈ MD5.hexChars) := by
  obtain ⟨fs2, acc, hnone, hroot2, hsubs, hloop, hfs'⟩ :=
    regenerate_ok_destruct hroot h
  have hne_root : root ≠ root ++ ["md5sum.txt"] := by simp
  have hne_root2 : root ++ ["md5sum.txt"] ≠ root := fun hh => hne_root hh.symm
  have hq_file : ∀ q ∈ subs, ∃ c m, fs2.lookup q = some (Entry.file c m) := by
    intro q hq
    exact mem_findAllFilesUnderAux (hsubs ▸ hq)
  have hq_ne_md5 : ∀ q ∈ subs, q ≠ root ++ ["md5sum.txt"] := by
    intro q hq
    obtain ⟨c, m, hlk⟩ := hq_file q hq
    rintro rfl
    rw [hnone] at hlk
    exact Option.noConfusion hlk
  have hq_ne_root : ∀ q ∈ subs, q ≠ root := by
    intro q hq
    obtain ⟨c, m, hlk⟩ := hq_file q hq
    rintro rfl
    rw [hroot2] at hlk
    exact Entry.noConfusion (Option.some.inj hlk)
  have hq_fileE : ∀ q ∈ subs, ∃ c m,
      (fs2.setEntry (root ++ ["md5sum.txt"]) (Entry.file [] 0o644)).lookup q =
        some (Entry.file c m) := by
    intro q hq
    obtain ⟨c, m, hlk⟩ := hq_file q hq
    refine ⟨c, m, ?_⟩
    rw [lookup_setEntry, if_neg (hq_ne_md5 q hq)]
    exact hlk
  obtain ⟨hacc, hprops⟩ := md5sumLoop_ok hq_fileE hloop
  have hq_fs' : ∀ q ∈ subs, fs'.lookup q = fs2.lookup q := by
    intro q hq
    rw [hfs']
    rw [lookup_setEntry, if_neg (hq_ne_root q hq),
      lookup_setEntry, if_neg (hq_ne_md5 q hq),
      lookup_setEntry, if_neg (hq_ne_md5 q hq),
      lookup_setEntry, if_neg (hq_ne_md5 q hq)]
  have hcontent : ∀ q ∈ subs, fs'.contentAt q =
      (fs2.setEntry (root ++ ["md5sum.txt"]) (Entry.file [] 0o644)).contentAt q := by
    intro q hq
    unfold FS.contentAt
    rw [hq_fs' q hq, lookup_setEntry, if_neg (hq_ne_md5 q hq)]
  have hmap : subs.map (fun q =>
      MD5.hexdigest ((fs'.contentAt q).getD []) ++ "  " ++
      String.intercalate "/" (q.drop root.length) ++ "\n") = subs.map (fun q =>
      MD5.hexdigest (((fs2.setEntry (root ++ ["md5sum.txt"])
        (Entry.file [] 0o644)).contentAt q).getD []) ++ "  " ++
      String.intercalate "/" (q.drop root.length) ++ "\n") :=
    List.map_congr_left (fun q hq => by rw [hcontent q hq])
  refine ⟨?_, ?_, ?_, ?_⟩
  · rw [hmap, hfs', lookup_setEntry, if_neg hne_root2, lookup_setEntry,
      if_pos rfl, hacc]
    simp
  · intro q hq
    obtain ⟨c, m, hlk⟩ := hq_file q hq
    exact ⟨c, m, by rw [hq_fs' q hq]; exact hlk⟩
  · intro q hq
    exact ⟨(hprops q hq).1, hq_ne_md5 q hq⟩
  · intro q hq
    exact ⟨hexdigest_length _, hexdigest_chars _⟩

/-- Witness for C5 on a concrete successful run: the manifest holds
exactly the line `MD5("hi")  a.txt`. -/
theorem C5_witness :
    regenerate_iso_md5sums_file fsC5w ["r"] = .ok [["r", "a.txt"]] fsC5wFinal ∧
    fsC5wFinal.lookup (["r"] ++ ["md5sum.txt"]) =
      some (Entry.file (encodeStr (concatStrs ([["r", "a.txt"]].map (fun q =>
        MD5.hexdigest ((fsC5wFinal.contentAt q).getD []) ++ "  " ++
        String.intercalate "/" (q.drop (["r"] : Path).length) ++ "\n")))) 0o444) :=
  ⟨by decide,
   (C5_regenerate_manifest fsC5w ["r"] 0o755 [["r", "a.txt"]] fsC5wFinal
     (by decide) (by decide)).1⟩

/-- Counterexample to C5 as stated: the tree holds exactly one
non-symlink regular file (`a.txt`) plus a direct symlink to it, yet
the regeneration hashes *two* entries — the symlink is not excluded
(Python's `is_file` follows links) — and the manifest contains the
line for `a.txt` twice, not exactly once per non-symlink regular
file. -/
theorem C5_counterexample :
    fsC5cx.isSymlink ["r", "link"] = true ∧
    (regenerate_iso_md5sums_file fsC5cx ["r"]).valD [] =
      [["r", "a.txt"], ["r", "a.txt"]] ∧
    (regenerate_iso_md5sums_file fsC5cx ["r"]).fsOf.contentAt
      ["r", "md5sum.txt"] =
      some (encodeStr ("49f68a5c8493ec2c0bf489821c21fc3b  a.txt\n" ++
        "49f68a5c8493ec2c0bf489821c21fc3b  a.txt\n")) := by
  refine ⟨?_, ?_, ?_⟩ <;> decide

/-! ## C9 — helper lemmas: nothing writes outside its region -/

theorem isPrefixOf_false_ne {base p : Path}
    (h : base.isPrefixOf p = false) (s : Path) : p ≠ base ++ s := by
  rintro rfl
  have hb : base.isPrefixOf (base ++ s) = true := by
    rw [List.isPrefixOf_iff_prefix]
    exact List.prefix_append base s
  rw [h] at hb
  exact Bool.noConfusion hb

theorem isPrefixOf_false_ne_self {base p : Path}
    (h : base.isPrefixOf p = false) : p ≠ base := by
  have := isPrefixOf_false_ne h []
  simpa using this

theorem placeTree_keep {dst p : Path} (hpre : dst.isPrefixOf p = false) :
    ∀ (tree : List (Path × Entry)) (fs : FS),
      (placeTree fs dst tree).lookup p = fs.lookup p := by
  intro tree
  induction tree with
  | nil => intro fs; rfl
  | cons re rest ih =>
    intro fs
    show (placeTree (fs.setEntry (dst ++ re.1) re.2) dst rest).lookup p = _
    rw [ih, lookup_setEntry, if_neg (isPrefixOf_false_ne hpre re.1)]

theorem placeTree_noLinks {dst : Path} {tree : List (Path × Entry)}
    (htree : ∀ re ∈ tree, re.2.isLink = false) :
    ∀ {fs : FS}, NoLinks fs → NoLinks (placeTree fs dst tree) := by
  induction tree with
  | nil => intro fs hfs; exact hfs
  | cons re rest ih =>
    intro fs hfs
    show NoLinks (placeTree (fs.setEntry (dst ++ re.1) re.2) dst rest)
    exact ih (fun x hx => htree x (List.mem_cons_of_mem _ hx))
      (noLinks_setEntry hfs (htree re (List.mem_cons_self _ _)))

theorem sysChmodWrite_keep {fs : FS} {q p : Path} {b : Bool}
    (hfs : NoLinks fs) (hne : p ≠ q) :
    (sysChmodWrite fs q b).lookup p = fs.lookup p := by
  unfold sysChmodWrite
  rw [show FS.fuelOf fs = fs.length + 1 from rfl, resolveFinal_noLinks hfs]
  cases hl : fs.lookup q with
  | none => rfl
  | some e =>
    cases e with
    | file c m => simp [lookup_setEntry, hne]
    | dir m => simp [lookup_setEntry, hne]
    | symlink t =>
      have := noLinks_lookup hfs hl
      simp [Entry.isLink] at this

theorem sysChmodWrite_noLinks {fs : FS} {q : Path} {b : Bool}
    (hfs : NoLinks fs) : NoLinks (sysChmodWrite fs q b) := by
  unfold sysChmodWrite
  rw [show FS.fuelOf fs = fs.length + 1 from rfl, resolveFinal_noLinks hfs]
  cases hl : fs.lookup q with
  | none => exact hfs
  | some e =>
    cases e with
    | file c m => exact noLinks_setEntry hfs (by rfl)
    | dir m => exact noLinks_setEntry hfs (by rfl)
    | symlink t =>
      have := noLinks_lookup hfs hl
      simp [Entry.isLink] at this

theorem sysChmodWriteRec_keyFixed (q : Path) (b : Bool) :
    ∀ pe : Path × Entry,
      ((fun pe => if q.isPrefixOf pe.1 = true then
        match pe.2 with
        | Entry.file c m =>
          (pe.1, Entry.file c (if b then m ||| 0o200 else m &&& 0o577))
        | Entry.dir m =>
          (pe.1, Entry.dir (if b then m ||| 0o200 else m &&& 0o577))
        | e => (pe.1, e)
        else pe) pe).1 = pe.1 := by
  intro pe
  rcases pe with ⟨p1, e1⟩
  by_cases h : (q.isPrefixOf p1 = true)
  · cases e1 <;> simp [h]
  · simp [h]

theorem sysChmodWriteRec_keep {fs : FS} {q p : Path} {b : Bool}
    (hpre : q.isPrefixOf p = false) :
    (sysChmodWriteRec fs q b).lookup p = fs.lookup p := by
  unfold sysChmodWriteRec
  rw [lookup_map_keyFixed (sysChmodWriteRec_keyFixed q b)]
  cases fs.lookup p with
  | none => rfl
  | some e => simp [hpre]

theorem sysChmodWriteRec_noLinks {fs : FS} {q : Path} {b : Bool}
    (hfs : NoLinks fs) : NoLinks (sysChmodWriteRec fs q b) := by
  intro pe hpe
  unfold sysChmodWriteRec at hpe
  rcases List.mem_map.mp hpe with ⟨pe0, hmem, heq⟩
  have h0 := hfs pe0 hmem
  rw [← heq]
  split
  · cases h1 : pe0.2 with
    | file c m => simp [Entry.isLink]
    | dir m => simp [Entry.isLink]
    | symlink t => rw [h1] at h0; simp [Entry.isLink] at h0
  · exact h0

theorem removeTree_keep {fs : FS} {q p : Path}
    (hpre : q.isPrefixOf p = false) :
    (removeTree fs q).lookup p = fs.lookup p := by
  unfold removeTree
  exact lookup_filter_of_kept (fun e => by simp [hpre])

theorem removeTree_noLinks {fs : FS} {q : Path} (hfs : NoLinks fs) :
    NoLinks (removeTree fs q) := noLinks_filter hfs

theorem sysSedFile_keep {fs : FS} {q p : Path} {pat rep : List Nat}
    (hne : p ≠ q) :
    (sysSedFile fs q pat rep).lookup p = fs.lookup p := by
  unfold sysSedFile
  cases hl : fs.lookup q with
  | none => rfl
  | some e =>
    cases e with
    | file c m => simp [lookup_setEntry, hne]
    | dir m => rfl
    | symlink t => rfl

theorem sysSedFile_noLinks {fs : FS} {q : Path} {pat rep : List Nat}
    (hfs : NoLinks fs) : NoLinks (sysSedFile fs q pat rep) := by
  unfold sysSedFile
  cases hl : fs.lookup q with
  | none => exact hfs
  | some e =>
    cases e with
    | file c m => exact noLinks_setEntry hfs (by rfl)
    | dir m => exact hfs
    | symlink t => exact hfs

theorem sysSedDirFiles_keyFixed (dir : Path) (pat rep : List Nat) :
    ∀ pe : Path × Entry,
      ((fun pe : Path × Entry =>
        match pe.2 with
        | Entry.file c m =>
          if (pe.1.length == dir.length + 1 && dir.isPrefixOf pe.1) = true then
            (pe.1, Entry.file (replaceBytes pat rep c) m)
          else pe
        | _ => pe) pe).1 = pe.1 := by
  intro pe
  rcases pe with ⟨p1, e1⟩
  cases e1 with
  | file c m =>
    by_cases h : ((p1.length == dir.length + 1 && dir.isPrefixOf p1) = true)
    · simp [h]
    · simp [h]
  | dir m => rfl
  | symlink t => rfl

theorem sysSedDirFiles_keep {fs : FS} {dir p : Path} {pat rep : List Nat}
    (hpre : dir.isPrefixOf p = false) :
    (sysSedDirFiles fs dir pat rep).lookup p = fs.lookup p := by
  unfold sysSedDirFiles
  rw [lookup_map_keyFixed (sysSedDirFiles_keyFixed dir pat rep)]
  cases fs.lookup p with
  | none => rfl
  | some e =>
    cases e with
    | file c m => simp [hpre]
    | dir m => rfl
    | symlink t => rfl

theorem sysSedDirFiles_noLinks {fs : FS} {dir : Path} {pat rep : List Nat}
    (hfs : NoLinks fs) : NoLinks (sysSedDirFiles fs dir pat rep) := by
  intro pe hpe
  unfold sysSedDirFiles at hpe
  rcases List.mem_map.mp hpe with ⟨pe0, hmem, heq⟩
  have h0 := hfs pe0 hmem
  rw [← heq]
  cases h1 : pe0.2 with
  | file c m =>
    simp only [h1]
    split
    · simp [Entry.isLink]
    · exact h0
  | dir m =>
    simp only [h1]
    simp [Entry.isLink]
  | symlink t => rw [h1] at h0; simp [Entry.isLink] at h0

theorem ensureDir_keep {fs : FS} {q p : Path} {e : Entry}
    (hp : fs.lookup p = some e) : (ensureDir fs q).lookup p = some e := by
  unfold ensureDir
  cases hl : fs.lookup q with
  | some e0 => exact hp
  | none =>
    have hne : p ≠ q := by
      rintro rfl
      rw [hp] at hl
      exact Option.noConfusion hl
    rw [lookup_setEntry, if_neg hne]
    exact hp

theorem ensureDir_noLinks {fs : FS} {q : Path} (hfs : NoLinks fs) :
    NoLinks (ensureDir fs q) := by
  unfold ensureDir
  cases fs.lookup q with
  | some e0 => exact hfs
  | none => exact noLinks_setEntry hfs (by rfl)

theorem sysMkdirP_keep {q p : Path} {e : Entry} :
    ∀ (l : List Nat) (fs : FS), fs.lookup p = some e →
      (l.foldl (fun f i => ensureDir f (q.take (i + 1))) fs).lookup p = some e := by
  intro l
  induction l with
  | nil => intro fs hp; exact hp
  | cons i rest ih =>
    intro fs hp
    exact ih _ (ensureDir_keep hp)

theorem sysMkdirP_noLinks {q : Path} :
    ∀ (l : List Nat) {fs : FS}, NoLinks fs →
      NoLinks (l.foldl (fun f i => ensureDir f (q.take (i + 1))) fs) := by
  intro l
  induction l with
  | nil => intro fs hfs; exact hfs
  | cons i rest ih =>
    intro fs hfs
    exact ih (ensureDir_noLinks hfs)

theorem sysCopyFile_keep {fs : FS} {src : Option Entry} {dst p : Path}
    (hne : p ≠ dst) : (sysCopyFile fs src dst).lookup p = fs.lookup p := by
  unfold sysCopyFile
  cases src with
  | none => rfl
  | some e =>
    cases e with
    | file c m => simp [lookup_setEntry, hne]
    | dir m => rfl
    | symlink t => rfl

theorem sysCopyFile_noLinks {fs : FS} {src : Option Entry} {dst : Path}
    (hfs : NoLinks fs) : NoLinks (sysCopyFile fs src dst) := by
  unfold sysCopyFile
  cases src with
  | none => exact hfs
  | some e =>
    cases e with
    | file c m => exact noLinks_setEntry hfs (by rfl)
    | dir m => exact hfs
    | symlink t => exact hfs

theorem mkTempDir_keep {fs : FS} {q p : Path} (hne : p ≠ q) :
    (mkTempDir fs q).lookup p = fs.lookup p := by
  unfold mkTempDir
  rw [lookup_setEntry, if_neg hne]

theorem mkTempDir_noLinks {fs : FS} {q : Path} (hfs : NoLinks fs) :
    NoLinks (mkTempDir fs q) := noLinks_setEntry hfs (by rfl)

theorem isPrefixOf_append_false {base s p : Path}
    (h : base.isPrefixOf p = false) : (base ++ s).isPrefixOf p = false := by
  cases hb : (base ++ s).isPrefixOf p with
  | false => rfl
  | true =>
    exfalso
    rw [List.isPrefixOf_iff_prefix] at hb
    have : base.isPrefixOf p = true := by
      rw [List.isPrefixOf_iff_prefix]
      exact (List.prefix_append base s).trans hb
    rw [h] at this
    exact Bool.noConfusion this

theorem find_all_fsOf (fs : FS) (root : Path) :
    (find_all_files_under fs root).fsOf = fs := by
  show (if (!fs.isDir (fs.pyResolve root)) = true then
      (PyResult.error PyError.notADirectory fs : PyResult (List Path))
    else PyResult.ok (findAllFilesUnderAux fs fs.walkFuel (fs.pyResolve root)) fs).fsOf = fs
  split <;> rfl

theorem cpioWriteBack_keep {fs : FS} {ext p : Path} {bytes : List Nat}
    (hne : p ≠ ext) : (cpioWriteBack fs ext bytes).lookup p = fs.lookup p := by
  unfold cpioWriteBack
  split <;> rw [lookup_setEntry, if_neg hne]

theorem cpioWriteBack_noLinks {fs : FS} {ext : Path} {bytes : List Nat}
    (hfs : NoLinks fs) : NoLinks (cpioWriteBack fs ext bytes) := by
  unfold cpioWriteBack
  split <;> exact noLinks_setEntry hfs (by rfl)

theorem sysMkdirP_keep2 {fs : FS} {q p : Path} {e : Entry}
    (hp : fs.lookup p = some e) : (sysMkdirP fs q).lookup p = some e := by
  unfold sysMkdirP
  exact sysMkdirP_keep _ _ hp

theorem sysMkdirP_noLinks2 {fs : FS} {q : Path} (hfs : NoLinks fs) :
    NoLinks (sysMkdirP fs q) := by
  unfold sysMkdirP
  exact sysMkdirP_noLinks _ hfs

/-! ## Stage frame lemmas for C9: each pipeline stage preserves every
entry outside its write region, and preserves link-freeness -/

theorem extract_iso_keep {env : ExtEnv} {fs : FS} {outDir inp p : Path}
    {e : Entry} (hfs : NoLinks fs)
    (henvE : ∀ b tree, env.xorrisoExtract b = some tree →
      ∀ re ∈ tree, re.2.isLink = false)
    (hpre : outDir.isPrefixOf p = false)
    (hp : fs.lookup p = some e) :
    (PyResult.fsOf (extract_iso env fs outDir inp)).lookup p = some e ∧
    NoLinks (PyResult.fsOf (extract_iso env fs outDir inp)) := by
  unfold extract_iso
  split
  · exact ⟨hp, hfs⟩
  split
  · exact ⟨hp, hfs⟩
  split
  next tree htree =>
    constructor
    · show (placeTree fs outDir tree).lookup p = some e
      rw [placeTree_keep hpre]
      exact hp
    · exact placeTree_noLinks (henvE _ _ htree) hfs
  next htree => exact ⟨hp, hfs⟩

theorem extract_mbr_keep {fs : FS} {out src p : Path} {e : Entry}
    (hfs : NoLinks fs) (hne : p ≠ out)
    (hp : fs.lookup p = some e) :
    (PyResult.fsOf (extract_mbr_from_iso fs out src)).lookup p = some e ∧
    NoLinks (PyResult.fsOf (extract_mbr_from_iso fs out src)) := by
  unfold extract_mbr_from_iso
  split
  · exact ⟨hp, hfs⟩
  split
  · exact ⟨hp, hfs⟩
  split
  · exact ⟨hp, hfs⟩
  split
  next e1 fs1 heq1 =>
    have hfseq : fs1 = fs := by
      have h0 := openReadWrite_fsOf fs src
      rw [heq1] at h0
      exact h0
    rw [hfseq]
    exact ⟨hp, hfs⟩
  next content fs1 heq1 =>
    have hfseq : fs1 = fs := by
      have h0 := openReadWrite_fsOf fs src
      rw [heq1] at h0
      exact h0
    have hfs1 : NoLinks fs1 := by rw [hfseq]; exact hfs
    have hp1 : fs1.lookup p = some e := by rw [hfseq]; exact hp
    have hL := @writeFile_frame fs1 out (content.take 432) p hfs1 hne
    have hN := @writeFile_noLinks fs1 out (content.take 432) hfs1
    split
    next e2 fs2 heq2 =>
      rw [heq2] at hL hN
      exact ⟨hL.trans hp1, hN⟩
    next v2 fs2 heq2 =>
      rw [heq2] at hL hN
      exact ⟨hL.trans hp1, hN⟩

theorem append_keep {env : ExtEnv} {fs : FS} {arch base rel p : Path}
    {e : Entry} (hfs : NoLinks fs)
    (h1 : p ≠ arch)
    (h2 : p ≠ pyParent arch)
    (h3 : p ≠ pyParent arch ++ [pyStripSuffix (pyName arch)])
    (hp : fs.lookup p = some e) :
    (PyResult.fsOf (append_file_contents_to_initrd_archive env fs arch
      base rel)).lookup p = some e ∧
    NoLinks (PyResult.fsOf (append_file_contents_to_initrd_archive env fs arch
      base rel)) := by
  unfold append_file_contents_to_initrd_archive
  split
  · exact ⟨hp, hfs⟩
  split
  · exact ⟨hp, hfs⟩
  have hL := @chmod_frame fs arch 0o644 p hfs h1
  have hN := @chmod_noLinks fs arch 0o644 hfs
  split
  next e1 fsA heq1 =>
    rw [heq1] at hL hN
    exact ⟨hL.trans hp, hN⟩
  next v1 fsA heq1 =>
    rw [heq1] at hL hN
    have hpA := hL.trans hp
    have hL2 := @chmod_frame fsA (pyParent arch) 0o755 p hN h2
    have hN2 := @chmod_noLinks fsA (pyParent arch) 0o755 hN
    split
    next e2 fsB heq2 =>
      rw [heq2] at hL2 hN2
      exact ⟨hL2.trans hpA, hN2⟩
    next v2 fsB heq2 =>
      rw [heq2] at hL2 hN2
      have hpB := hL2.trans hpA
      split
      next e3 fsC heq3 =>
        have hfseq : fsC = fsB := by
          have h0 := openRead_fsOf fsB arch
          rw [heq3] at h0
          exact h0
        rw [hfseq]
        exact ⟨hpB, hN2⟩
      next gz fsC heq3 =>
        have hfseq : fsC = fsB := by
          have h0 := openRead_fsOf fsB arch
          rw [heq3] at h0
          exact h0
        have hfsC : NoLinks fsC := by rw [hfseq]; exact hN2
        have hpC : fsC.lookup p = some e := by rw [hfseq]; exact hpB
        split
        next hgz =>
          simp only []
          have hL3 := @writeFile_frame fsC
            (pyParent arch ++ [pyStripSuffix (pyName arch)]) [] p hfsC h3
          have hN3 := @writeFile_noLinks fsC
            (pyParent arch ++ [pyStripSuffix (pyName arch)]) [] hfsC
          split
          next e4 fsD heq4 =>
            rw [heq4] at hL3 hN3
            exact ⟨hL3.trans hpC, hN3⟩
          next v4 fsD heq4 =>
            rw [heq4] at hL3 hN3
            exact ⟨hL3.trans hpC, hN3⟩
        next raw hgz =>
          simp only []
          have hL3 := @writeFile_frame fsC
            (pyParent arch ++ [pyStripSuffix (pyName arch)]) raw p hfsC h3
          have hN3 := @writeFile_noLinks fsC
            (pyParent arch ++ [pyStripSuffix (pyName arch)]) raw hfsC
          split
          next e4 fsD heq4 =>
            rw [heq4] at hL3 hN3
            exact ⟨hL3.trans hpC, hN3⟩
          next v4 fsD heq4 =>
            rw [heq4] at hL3 hN3
            have hpD := hL3.trans hpC
            have hL4 := @unlink_frame fsD arch p h1
            have hN4 := @unlink_noLinks fsD arch hN3
            split
            next e5 fsE heq5 =>
              rw [heq5] at hL4 hN4
              exact ⟨hL4.trans hpD, hN4⟩
            next v5 fsE heq5 =>
              rw [heq5] at hL4 hN4
              have hpE := hL4.trans hpD
              have hpF : (cpioWriteBack fsE
                  (pyParent arch ++ [pyStripSuffix (pyName arch)])
                  (env.cpioAppend ((fsE.contentAt (pyParent arch ++
                    [pyStripSuffix (pyName arch)])).getD [])
                    (fsE.contentAt (fsE.pyResolve (base ++ rel)))).2).lookup p =
                  some e := by
                rw [cpioWriteBack_keep h3]
                exact hpE
              have hfsF := @cpioWriteBack_noLinks fsE
                (pyParent arch ++ [pyStripSuffix (pyName arch)])
                (env.cpioAppend ((fsE.contentAt (pyParent arch ++
                  [pyStripSuffix (pyName arch)])).getD [])
                  (fsE.contentAt (fsE.pyResolve (base ++ rel)))).2 hN4
              split
              next e6 fsG heq6 =>
                have hfseq6 : fsG = cpioWriteBack fsE
                    (pyParent arch ++ [pyStripSuffix (pyName arch)])
                    (env.cpioAppend ((fsE.contentAt (pyParent arch ++
                      [pyStripSuffix (pyName arch)])).getD [])
                      (fsE.contentAt (fsE.pyResolve (base ++ rel)))).2 := by
                  have h0 := openRead_fsOf (cpioWriteBack fsE
                    (pyParent arch ++ [pyStripSuffix (pyName arch)])
                    (env.cpioAppend ((fsE.contentAt (pyParent arch ++
                      [pyStripSuffix (pyName arch)])).getD [])
                      (fsE.contentAt (fsE.pyResolve (base ++ rel)))).2)
                    (pyParent arch ++ [pyStripSuffix (pyName arch)])
                  rw [heq6] at h0
                  exact h0
                rw [hfseq6]
                exact ⟨hpF, hfsF⟩
              next raw2 fsG heq6 =>
                have hfseq6 : fsG = cpioWriteBack fsE
                    (pyParent arch ++ [pyStripSuffix (pyName arch)])
                    (env.cpioAppend ((fsE.contentAt (pyParent arch ++
                      [pyStripSuffix (pyName arch)])).getD [])
                      (fsE.contentAt (fsE.pyResolve (base ++ rel)))).2 := by
                  have h0 := openRead_fsOf (cpioWriteBack fsE
                    (pyParent arch ++ [pyStripSuffix (pyName arch)])
                    (env.cpioAppend ((fsE.contentAt (pyParent arch ++
                      [pyStripSuffix (pyName arch)])).getD [])
                      (fsE.contentAt (fsE.pyResolve (base ++ rel)))).2)
                    (pyParent arch ++ [pyStripSuffix (pyName arch)])
                  rw [heq6] at h0
                  exact h0
                have hfsG : NoLinks fsG := by rw [hfseq6]; exact hfsF
                have hpG : fsG.lookup p = some e := by rw [hfseq6]; exact hpF
                have hL7 := @writeFile_frame fsG arch (env.gzip raw2) p hfsG h1
                have hN7 := @writeFile_noLinks fsG arch (env.gzip raw2) hfsG
                split
                next e7 fsH heq7 =>
                  rw [heq7] at hL7 hN7
                  exact ⟨hL7.trans hpG, hN7⟩
                next v7 fsH heq7 =>
                  rw [heq7] at hL7 hN7
                  have hpH := hL7.trans hpG
                  have hL8 := @unlink_frame fsH
                    (pyParent arch ++ [pyStripSuffix (pyName arch)]) p h3
                  have hN8 := @unlink_noLinks fsH
                    (pyParent arch ++ [pyStripSuffix (pyName arch)]) hN7
                  split
                  next e8 fsI heq8 =>
                    rw [heq8] at hL8 hN8
                    exact ⟨hL8.trans hpH, hN8⟩
                  next v8 fsI heq8 =>
                    rw [heq8] at hL8 hN8
                    have hpI := hL8.trans hpH
                    have hL9 := @chmod_frame fsI arch 0o444 p hN8 h1
                    have hN9 := @chmod_noLinks fsI arch 0o444 hN8
                    split
                    next e9 fsJ heq9 =>
                      rw [heq9] at hL9 hN9
                      exact ⟨hL9.trans hpI, hN9⟩
                    next v9 fsJ heq9 =>
                      rw [heq9] at hL9 hN9
                      have hpJ := hL9.trans hpI
                      have hL10 := @chmod_frame fsJ (pyParent arch) 0o555 p hN9 h2
                      have hN10 := @chmod_noLinks fsJ (pyParent arch) 0o555 hN9
                      split
                      next e10 fsK heq10 =>
                        rw [heq10] at hL10 hN10
                        exact ⟨hL10.trans hpJ, hN10⟩
                      next v10 fsK heq10 =>
                        rw [heq10] at hL10 hN10
                        exact ⟨hL10.trans hpJ, hN10⟩

theorem regenerate_keep {fs : FS} {rootArg p : Path} {e : Entry}
    (hfs : NoLinks fs)
    (hne1 : p ≠ rootArg ++ ["md5sum.txt"])
    (hne2 : p ≠ rootArg)
    (hp : fs.lookup p = some e) :
    (PyResult.fsOf (regenerate_iso_md5sums_file fs rootArg)).lookup p = some e ∧
    NoLinks (PyResult.fsOf (regenerate_iso_md5sums_file fs rootArg)) := by
  unfold regenerate_iso_md5sums_file
  simp only [pyResolve_noLinks hfs]
  split
  · exact ⟨hp, hfs⟩
  have hL := @chmod_frame fs (rootArg ++ ["md5sum.txt"]) 0o644 p hfs hne1
  have hN := @chmod_noLinks fs (rootArg ++ ["md5sum.txt"]) 0o644 hfs
  split
  next e1 fsA heq1 =>
    rw [heq1] at hL hN
    exact ⟨hL.trans hp, hN⟩
  next v1 fsA heq1 =>
    rw [heq1] at hL hN
    have hpA := hL.trans hp
    have hL2 := @chmod_frame fsA rootArg 0o755 p hN hne2
    have hN2 := @chmod_noLinks fsA rootArg 0o755 hN
    split
    next e2 fsB heq2 =>
      rw [heq2] at hL2 hN2
      exact ⟨hL2.trans hpA, hN2⟩
    next v2 fsB heq2 =>
      rw [heq2] at hL2 hN2
      have hpB := hL2.trans hpA
      have hL3 := @unlink_frame fsB (rootArg ++ ["md5sum.txt"]) p hne1
      have hN3 := @unlink_noLinks fsB (rootArg ++ ["md5sum.txt"]) hN2
      split
      next e3 fsC heq3 =>
        rw [heq3] at hL3 hN3
        exact ⟨hL3.trans hpB, hN3⟩
      next v3 fsC heq3 =>
        rw [heq3] at hL3 hN3
        have hpC := hL3.trans hpB
        split
        next e4 fsD heq4 =>
          have hfseq : fsD = fsC := by
            have h0 := find_all_fsOf fsC rootArg
            rw [heq4] at h0
            exact h0
          rw [hfseq]
          exact ⟨hpC, hN3⟩
        next subs fsD heq4 =>
          have hfseq : fsD = fsC := by
            have h0 := find_all_fsOf fsC rootArg
            rw [heq4] at h0
            exact h0
          have hfsD : NoLinks fsD := by rw [hfseq]; exact hN3
          have hpD : fsD.lookup p = some e := by rw [hfseq]; exact hpC
          have hL5 := @writeFile_frame fsD (rootArg ++ ["md5sum.txt"]) [] p hfsD hne1
          have hN5 := @writeFile_noLinks fsD (rootArg ++ ["md5sum.txt"]) [] hfsD
          split
          next e5 fsE heq5 =>
            rw [heq5] at hL5 hN5
            exact ⟨hL5.trans hpD, hN5⟩
          next v5 fsE heq5 =>
            rw [heq5] at hL5 hN5
            have hpE := hL5.trans hpD
            have hL6 := @writeFile_frame fsE (rootArg ++ ["md5sum.txt"])
              (encodeStr (md5sumLoop fsE rootArg subs "").1) p hN5 hne1
            have hN6 := @writeFile_noLinks fsE (rootArg ++ ["md5sum.txt"])
              (encodeStr (md5sumLoop fsE rootArg subs "").1) hN5
            split
            next e6 fsF heq6 =>
              rw [heq6] at hL6 hN6
              exact ⟨hL6.trans hpE, hN6⟩
            next v6 fsF heq6 =>
              rw [heq6] at hL6 hN6
              have hpF := hL6.trans hpE
              split
              next eL hE =>
                exact ⟨hpF, hN6⟩
              next hE =>
                have hL7 := @chmod_frame fsF (rootArg ++ ["md5sum.txt"]) 0o444 p hN6 hne1
                have hN7 := @chmod_noLinks fsF (rootArg ++ ["md5sum.txt"]) 0o444 hN6
                split
                next e7 fsG heq7 =>
                  rw [heq7] at hL7 hN7
                  exact ⟨hL7.trans hpF, hN7⟩
                next v7 fsG heq7 =>
                  rw [heq7] at hL7 hN7
                  have hpG := hL7.trans hpF
                  have hL8 := @chmod_frame fsG rootArg 0o555 p hN7 hne2
                  have hN8 := @chmod_noLinks fsG rootArg 0o555 hN7
                  split
                  next e8 fsH heq8 =>
                    rw [heq8] at hL8 hN8
                    exact ⟨hL8.trans hpG, hN8⟩
                  next v8 fsH heq8 =>
                    rw [heq8] at hL8 hN8
                    exact ⟨hL8.trans hpG, hN8⟩

theorem repack_keep {env : ExtEnv} {fs : FS} {out mbr rootDir p : Path}
    {name : String} {e : Entry} (hfs : NoLinks fs)
    (hp : fs.lookup p = some e) :
    (PyResult.fsOf (repack_iso env fs out mbr rootDir name)).lookup p =
      some e ∧
    NoLinks (PyResult.fsOf (repack_iso env fs out mbr rootDir name)) := by
  unfold repack_iso
  split
  next h1 => exact ⟨hp, hfs⟩
  next h1 =>
    split
    · exact ⟨hp, hfs⟩
    split
    · exact ⟨hp, hfs⟩
    split
    next c hc => exact ⟨hp, hfs⟩
    next hnone =>
      split
      next bytes hx =>
        have hpe : fs.pathExists p = true := by
          unfold FS.pathExists FS.fuelOf
          rw [resolveFinal_of_nonlink hp (noLinks_lookup hfs hp)]
          rfl
        have hne : p ≠ out := by
          intro hcontra
          rw [hcontra] at hpe
          exact h1 hpe
        refine ⟨?_, ?_⟩
        · show (fs.setEntry out (Entry.file bytes 0o644)).lookup p = some e
          rw [lookup_setEntry, if_neg hne]
          exact hp
        · exact noLinks_setEntry hfs rfl
      next hx => exact ⟨hp, hfs⟩

theorem pyParent_append2 (b : Path) (x y : String) :
    pyParent (b ++ [x, y]) = b ++ [x] := by
  unfold pyParent
  rw [show b ++ [x, y] = (b ++ [x]) ++ [y] by simp]
  exact List.dropLast_concat

theorem mkTempDir_keepN (q : Path) {fs : FS} {p : Path} {e : Entry}
    (hne : p ≠ q) (h : fs.lookup p = some e ∧ NoLinks fs) :
    (mkTempDir fs q).lookup p = some e ∧ NoLinks (mkTempDir fs q) :=
  ⟨(mkTempDir_keep hne).trans h.1, mkTempDir_noLinks h.2⟩

theorem sysChmodWrite_keepN (q : Path) (b : Bool) {fs : FS} {p : Path}
    {e : Entry} (hne : p ≠ q) (h : fs.lookup p = some e ∧ NoLinks fs) :
    (sysChmodWrite fs q b).lookup p = some e ∧
    NoLinks (sysChmodWrite fs q b) :=
  ⟨(sysChmodWrite_keep h.2 hne).trans h.1, sysChmodWrite_noLinks h.2⟩

theorem sysChmodWriteRec_keepN (q : Path) (b : Bool) {fs : FS} {p : Path}
    {e : Entry} (hpre : q.isPrefixOf p = false)
    (h : fs.lookup p = some e ∧ NoLinks fs) :
    (sysChmodWriteRec fs q b).lookup p = some e ∧
    NoLinks (sysChmodWriteRec fs q b) :=
  ⟨(sysChmodWriteRec_keep hpre).trans h.1, sysChmodWriteRec_noLinks h.2⟩

theorem removeTree_keepN (q : Path) {fs : FS} {p : Path} {e : Entry}
    (hpre : q.isPrefixOf p = false)
    (h : fs.lookup p = some e ∧ NoLinks fs) :
    (removeTree fs q).lookup p = some e ∧ NoLinks (removeTree fs q) :=
  ⟨(removeTree_keep hpre).trans h.1, removeTree_noLinks h.2⟩

theorem placeTree_keepN (dst : Path) (tree : List (Path × Entry)) {fs : FS}
    {p : Path} {e : Entry} (hpre : dst.isPrefixOf p = false)
    (htree : ∀ re ∈ tree, re.2.isLink = false)
    (h : fs.lookup p = some e ∧ NoLinks fs) :
    (placeTree fs dst tree).lookup p = some e ∧
    NoLinks (placeTree fs dst tree) :=
  ⟨(placeTree_keep hpre tree fs).trans h.1, placeTree_noLinks htree h.2⟩

theorem sysSedFile_keepN (q : Path) (pat rep : List Nat) {fs : FS} {p : Path}
    {e : Entry} (hne : p ≠ q) (h : fs.lookup p = some e ∧ NoLinks fs) :
    (sysSedFile fs q pat rep).lookup p = some e ∧
    NoLinks (sysSedFile fs q pat rep) :=
  ⟨(sysSedFile_keep hne).trans h.1, sysSedFile_noLinks h.2⟩

theorem sysSedDirFiles_keepN (dir : Path) (pat rep : List Nat) {fs : FS}
    {p : Path} {e : Entry} (hpre : dir.isPrefixOf p = false)
    (h : fs.lookup p = some e ∧ NoLinks fs) :
    (sysSedDirFiles fs dir pat rep).lookup p = some e ∧
    NoLinks (sysSedDirFiles fs dir pat rep) :=
  ⟨(sysSedDirFiles_keep hpre).trans h.1, sysSedDirFiles_noLinks h.2⟩

theorem sysMkdirP_keepN (q : Path) {fs : FS} {p : Path} {e : Entry}
    (h : fs.lookup p = some e ∧ NoLinks fs) :
    (sysMkdirP fs q).lookup p = some e ∧ NoLinks (sysMkdirP fs q) :=
  ⟨sysMkdirP_keep2 h.1, sysMkdirP_noLinks2 h.2⟩

theorem sysCopyFile_keepN (src : Option Entry) (dst : Path) {fs : FS}
    {p : Path} {e : Entry} (hne : p ≠ dst)
    (h : fs.lookup p = some e ∧ NoLinks fs) :
    (sysCopyFile fs src dst).lookup p = some e ∧
    NoLinks (sysCopyFile fs src dst) :=
  ⟨(sysCopyFile_keep hne).trans h.1, sysCopyFile_noLinks h.2⟩

theorem append_keepN (env : ExtEnv) (base rel : Path) {fs : FS}
    {arch p : Path} {e : Entry}
    (h1 : p ≠ arch)
    (h2 : p ≠ pyParent arch)
    (h3 : p ≠ pyParent arch ++ [pyStripSuffix (pyName arch)])
    (h : fs.lookup p = some e ∧ NoLinks fs) :
    (PyResult.fsOf (append_file_contents_to_initrd_archive env fs arch
      base rel)).lookup p = some e ∧
    NoLinks (PyResult.fsOf (append_file_contents_to_initrd_archive env fs arch
      base rel)) :=
  append_keep h.2 h1 h2 h3 h.1

theorem repack_keepN (env : ExtEnv) (out mbr rootDir : Path) (name : String)
    {fs : FS} {p : Path} {e : Entry}
    (h : fs.lookup p = some e ∧ NoLinks fs) :
    (PyResult.fsOf (repack_iso env fs out mbr rootDir name)).lookup p =
      some e ∧
    NoLinks (PyResult.fsOf (repack_iso env fs out mbr rootDir name)) :=
  repack_keep h.2 h.1

theorem inject_keep {env : ExtEnv} {fs : FS}
    {path_to_output_iso_file path_to_input_iso_file : Path}
    {iso_filesystem_name : String} {p : Path} {e : Entry}
    (hfs : NoLinks fs)
    (henvE : ∀ b tree, env.xorrisoExtract b = some tree →
      ∀ re ∈ tree, re.2.isLink = false)
    (htree : ∀ re ∈ env.filesToInject, re.2.isLink = false)
    (hpreE : tmpExtractedDir.isPrefixOf p = false)
    (hpreM : tmpMbrDir.isPrefixOf p = false)
    (hpreF : tmpFileDir.isPrefixOf p = false)
    (hp : fs.lookup p = some e) :
    (PyResult.fsOf (inject_files_into_iso env fs path_to_output_iso_file
      path_to_input_iso_file iso_filesystem_name)).lookup p = some e ∧
    NoLinks (PyResult.fsOf (inject_files_into_iso env fs
      path_to_output_iso_file path_to_input_iso_file
      iso_filesystem_name)) := by
  unfold inject_files_into_iso
  split
  · exact ⟨hp, hfs⟩
  split
  · exact ⟨hp, hfs⟩
  split
  · exact ⟨hp, hfs⟩
  try simp only []
  have hEx : (PyResult.fsOf (extract_iso env (mkTempDir fs tmpExtractedDir)
        tmpExtractedDir path_to_input_iso_file)).lookup p = some e ∧
      NoLinks (PyResult.fsOf (extract_iso env (mkTempDir fs tmpExtractedDir)
        tmpExtractedDir path_to_input_iso_file)) :=
    extract_iso_keep (mkTempDir_noLinks hfs) henvE hpreE
      ((mkTempDir_keep (isPrefixOf_false_ne_self hpreE)).trans hp)
  split
  next e1 fs1 heq1 =>
    rw [heq1] at hEx
    exact hEx
  next v1 fs1 heq1 =>
    rw [heq1] at hEx
    have h0a : fs1.lookup p = some e ∧ NoLinks fs1 := hEx
    try simp only []
    have hM : (PyResult.fsOf (extract_mbr_from_iso (mkTempDir fs1 tmpMbrDir)
          (tmpMbrDir ++ ["mbr.bin"]) path_to_input_iso_file)).lookup p =
          some e ∧
        NoLinks (PyResult.fsOf (extract_mbr_from_iso (mkTempDir fs1 tmpMbrDir)
          (tmpMbrDir ++ ["mbr.bin"]) path_to_input_iso_file)) :=
      extract_mbr_keep (mkTempDir_noLinks h0a.2)
        (isPrefixOf_false_ne hpreM ["mbr.bin"])
        ((mkTempDir_keep (isPrefixOf_false_ne_self hpreM)).trans h0a.1)
    split
    next e2 fs2 heq2 =>
      rw [heq2] at hM
      exact hM
    next v2 fs2 heq2 =>
      rw [heq2] at hM
      have h0 : fs2.lookup p = some e ∧ NoLinks fs2 := hM
      try simp only []
      have hMid :=
        sysCopyFile_keepN (FS.lookup env.filesToInject ["logo.png"])
          (tmpFileDir ++ ["usr", "share", "graphics", "logo_debian.png"])
          (isPrefixOf_false_ne hpreF _)
        (sysMkdirP_keepN (tmpFileDir ++ ["usr", "share", "graphics"])
        (mkTempDir_keepN tmpFileDir (isPrefixOf_false_ne_self hpreF)
        (sysChmodWriteRec_keepN (tmpExtractedDir ++ ["preseeds"]) false
          (isPrefixOf_append_false hpreE)
        (sysChmodWriteRec_keepN (tmpExtractedDir ++ ["isolinux"]) false
          (isPrefixOf_append_false hpreE)
        (sysChmodWrite_keepN
          (tmpExtractedDir ++ ["boot", "grub", "grub.cfg"]) false
          (isPrefixOf_false_ne hpreE _)
        (sysChmodWrite_keepN (tmpExtractedDir ++ ["boot", "grub"]) false
          (isPrefixOf_false_ne hpreE _)
        (sysSedDirFiles_keepN (tmpExtractedDir ++ ["preseeds"])
          (encodeStr "__TESTING__") (encodeStr (if (if hasInfix "debian-12".toList (pyName path_to_input_iso_file).toList then "bookworm" else "bullseye") == "bookworm" then "testing" else ""))
          (isPrefixOf_append_false hpreE)
        (sysSedDirFiles_keepN (tmpExtractedDir ++ ["preseeds"])
          (encodeStr "__DIST__") (encodeStr (if hasInfix "debian-12".toList (pyName path_to_input_iso_file).toList then "bookworm" else "bullseye"))
          (isPrefixOf_append_false hpreE)
        (sysSedFile_keepN (tmpExtractedDir ++ ["isolinux", "menu.cfg"])
          (encodeStr "__ARCH__") (encodeStr (if hasInfix "amd64".toList (pyName path_to_input_iso_file).toList then "amd" else "386"))
          (isPrefixOf_false_ne hpreE _)
        (placeTree_keepN tmpExtractedDir env.filesToInject hpreE htree
        (sysChmodWriteRec_keepN (tmpExtractedDir ++ ["isolinux"]) true
          (isPrefixOf_append_false hpreE)
        (sysChmodWrite_keepN
          (tmpExtractedDir ++ ["boot", "grub", "grub.cfg"]) true
          (isPrefixOf_false_ne hpreE _)
        (sysChmodWrite_keepN (tmpExtractedDir ++ ["boot", "grub"]) true
          (isPrefixOf_false_ne hpreE _)
        (sysChmodWrite_keepN (tmpExtractedDir ++ ["install." ++ (if hasInfix "amd64".toList (pyName path_to_input_iso_file).toList then "amd" else "386")])
          false (isPrefixOf_false_ne hpreE _)
        (removeTree_keepN
          ((tmpExtractedDir ++ ["install." ++ (if hasInfix "amd64".toList (pyName path_to_input_iso_file).toList then "amd" else "386")]) ++ ["xen"])
          (isPrefixOf_append_false (isPrefixOf_append_false hpreE))
        (sysChmodWriteRec_keepN
          ((tmpExtractedDir ++ ["install." ++ (if hasInfix "amd64".toList (pyName path_to_input_iso_file).toList then "amd" else "386")]) ++ ["xen"]) true
          (isPrefixOf_append_false (isPrefixOf_append_false hpreE))
        (sysChmodWrite_keepN (tmpExtractedDir ++ ["install." ++ (if hasInfix "amd64".toList (pyName path_to_input_iso_file).toList then "amd" else "386")])
          true (isPrefixOf_false_ne hpreE _)
        h0)))))))))))))))))
      have h1 : p ≠ ((tmpExtractedDir ++ ["install." ++ (if hasInfix "amd64".toList (pyName path_to_input_iso_file).toList then "amd" else "386")]) ++ ["gtk", "initrd.gz"]) :=
        isPrefixOf_false_ne (isPrefixOf_append_false hpreE)
          ["gtk", "initrd.gz"]
      have h2 : p ≠ pyParent ((tmpExtractedDir ++ ["install." ++ (if hasInfix "amd64".toList (pyName path_to_input_iso_file).toList then "amd" else "386")]) ++ ["gtk", "initrd.gz"]) := by
        rw [pyParent_append2]
        exact isPrefixOf_false_ne (isPrefixOf_append_false hpreE) ["gtk"]
      have h3 : p ≠ pyParent ((tmpExtractedDir ++ ["install." ++ (if hasInfix "amd64".toList (pyName path_to_input_iso_file).toList then "amd" else "386")]) ++ ["gtk", "initrd.gz"]) ++
          [pyStripSuffix (pyName ((tmpExtractedDir ++ ["install." ++ (if hasInfix "amd64".toList (pyName path_to_input_iso_file).toList then "amd" else "386")]) ++ ["gtk", "initrd.gz"]))] := by
        rw [pyParent_append2]
        exact isPrefixOf_false_ne
          (isPrefixOf_append_false (isPrefixOf_append_false hpreE)) _
      have hAp := append_keepN env tmpFileDir
        ["usr", "share", "graphics", "logo_debian.png"] h1 h2 h3 hMid
      split
      next e3 fs3 heq3 =>
        rw [heq3] at hAp
        exact hAp
      next v3 fs3 heq3 =>
        rw [heq3] at hAp
        have h0b : fs3.lookup p = some e ∧ NoLinks fs3 := hAp
        have hRe := regenerate_keep h0b.2
          (isPrefixOf_false_ne hpreE ["md5sum.txt"])
          (isPrefixOf_false_ne_self hpreE) h0b.1
        split
        next e4 fs4 heq4 =>
          rw [heq4] at hRe
          exact hRe
        next v4 fs4 heq4 =>
          rw [heq4] at hRe
          have h0c : fs4.lookup p = some e ∧ NoLinks fs4 := hRe
          have hRp := repack_keepN env path_to_output_iso_file
            (tmpMbrDir ++ ["mbr.bin"]) tmpExtractedDir
            iso_filesystem_name h0c
          split
          next e5 fs5 heq5 =>
            rw [heq5] at hRp
            exact hRp
          next v5 fs5 heq5 =>
            rw [heq5] at hRp
            have h0d : fs5.lookup p = some e ∧ NoLinks fs5 := hRp
            exact removeTree_keepN tmpExtractedDir hpreE
              (removeTree_keepN tmpMbrDir hpreM
              (removeTree_keepN tmpFileDir hpreF h0d))

/-! ## C9 — the source image is never mutated -/

/-- **C9**: no pipeline operation mutates the source image.  For a
link-free filesystem, an extraction environment that produces link-free
trees, and a source path outside the extraction output directory, the
MBR output path and the orchestrator's three temporary regions, the
source entry — its byte contents and its mode — is unchanged in the
resulting filesystem after `extract_iso`, after `extract_mbr_from_iso`
and after the full `inject_files_into_iso` pipeline, whether the call
succeeds or fails. -/
theorem C9_source_iso_never_mutated
    {env : ExtEnv} {fs : FS} {outDir mbrOut outIso src : Path}
    {isoName : String} {c : List Nat} {m : Nat}
    (hfs : NoLinks fs)
    (henvE : ∀ b tree, env.xorrisoExtract b = some tree →
      ∀ re ∈ tree, re.2.isLink = false)
    (htree : ∀ re ∈ env.filesToInject, re.2.isLink = false)
    (hsrc : fs.lookup src = some (Entry.file c m))
    (houtDir : outDir.isPrefixOf src = false)
    (hmbr : src ≠ mbrOut)
    (hpreE : tmpExtractedDir.isPrefixOf src = false)
    (hpreM : tmpMbrDir.isPrefixOf src = false)
    (hpreF : tmpFileDir.isPrefixOf src = false) :
    (PyResult.fsOf (extract_iso env fs outDir src)).lookup src =
      some (Entry.file c m) ∧
    (PyResult.fsOf (extract_mbr_from_iso fs mbrOut src)).lookup src =
      some (Entry.file c m) ∧
    (PyResult.fsOf (inject_files_into_iso env fs outIso src
      isoName)).lookup src = some (Entry.file c m) :=
  ⟨(extract_iso_keep hfs henvE houtDir hsrc).1,
   (extract_mbr_keep hfs hmbr hsrc).1,
   (inject_keep hfs henvE htree hpreE hpreM hpreF hsrc).1⟩

/-- C9 witness: on a concrete filesystem the source image entry is
intact after each of the three pipeline entry points. -/
theorem C9_witness :
    fsC9.lookup ["d", "src.iso"] = some (Entry.file [7, 7] 0o444) ∧
    (PyResult.fsOf (extract_iso envC9 fsC9 ["work", "ext"]
      ["d", "src.iso"])).lookup ["d", "src.iso"] =
        some (Entry.file [7, 7] 0o444) ∧
    (PyResult.fsOf (extract_mbr_from_iso fsC9 ["work", "mbr.bin"]
      ["d", "src.iso"])).lookup ["d", "src.iso"] =
        some (Entry.file [7, 7] 0o444) ∧
    (PyResult.fsOf (inject_files_into_iso envC9 fsC9 ["work", "out.iso"]
      ["d", "src.iso"] "TESTISO")).lookup ["d", "src.iso"] =
        some (Entry.file [7, 7] 0o444) :=
  ⟨by decide,
   @C9_source_iso_never_mutated envC9 fsC9 ["work", "ext"]
     ["work", "mbr.bin"] ["work", "out.iso"] ["d", "src.iso"] "TESTISO"
     [7, 7] 0o444
     (by unfold NoLinks; decide)
     (fun b tree h => by cases h; decide)
     (by decide) (by decide) (by decide) (by decide) (by decide)
     (by decide) (by decide)⟩

end CustomDebianIso
